import Mathlib

/-!
Shallow embedding of the Lox-family tree-walking interpreter (lexer, parser,
resolver, environments, runtime values, interpreter) and proofs about the
behaviour of its components.  Each definition is a direct translation of the
corresponding TypeScript source; JavaScript exceptions are modelled with
`Except`, mutable object state with explicit state records, and unbounded
loops with an explicit fuel parameter that is always instantiated large
enough in the theorems.  IEEE-754 numbers are modelled as rationals; the
claims proved here never depend on float-specific behaviour.
-/

namespace Lox

/-- Token kinds, translated from the TokenType enum of the source. -/
inductive TokenType
  | LeftParen | RightParen | LeftBrace | RightBrace
  | Comma | Dot | Minus | Plus | Semicolon | Slash | Star | Percent
  | Bang | BangEqual | Equal | EqualEqual
  | Greater | GreaterEqual | Less | LessEqual
  | Identifier | StringTok | NumberTok
  | And | Class | Else | False | Function | For | If | Nil | Or | Print
  | Return | Super | This | True | Var | While
  | EOF
deriving DecidableEq, Repr

/-- Literal payload of a token: numbers are modelled as rationals. -/
inductive Lit
  | num (q : ℚ)
  | str (s : String)
deriving DecidableEq, Repr

/-- A token as produced by the scanner: kind, lexeme, optional literal, line. -/
structure Token where
  type : TokenType
  lexeme : String
  literal : Option Lit
  line : Nat
deriving DecidableEq, Repr

/-! ## Scanner

Translation of the Scanner class.  The scanner state carries the source (as a
character list), the tokens emitted so far, the `start`/`current` cursor pair
and the 1-based line counter.  The `error` helper of the source throws a
SyntaxError, so the scanner is modelled with `Except`. -/

/-- An error raised by the scanner, with the line it reports. -/
structure ScanError where
  line : Nat
  message : String
deriving DecidableEq, Repr

/-- The mutable fields of the Scanner class. -/
structure ScanState where
  source : List Char
  tokens : List Token
  start : Nat
  current : Nat
  line : Nat
deriving DecidableEq, Repr

/-- Scanner.isAtEnd: current >= source.length. -/
def ScanState.isAtEnd (s : ScanState) : Bool :=
  s.source.length ≤ s.current

/-- Scanner.peek: the character at `current`, or a NUL sentinel at the end. -/
def ScanState.peek (s : ScanState) : Char :=
  if s.isAtEnd then '\x00' else s.source.getD s.current '\x00'

/-- Scanner.peekNext: the character after `current`, or a NUL sentinel. -/
def ScanState.peekNext (s : ScanState) : Char :=
  if s.source.length ≤ s.current + 1 then '\x00'
  else s.source.getD (s.current + 1) '\x00'

/-- Scanner.advance, state part: increment `current`. -/
def ScanState.bump (s : ScanState) : ScanState :=
  { s with current := s.current + 1 }

/-- Scanner.advance, value part: the character consumed. -/
def ScanState.advanceChar (s : ScanState) : Char :=
  s.source.getD s.current '\x00'

/-- The characters of `source` in positions `[a, b)`, as a string
(source.substring(a, b)). -/
def strSlice (source : List Char) (a b : Nat) : String :=
  String.mk ((source.drop a).take (b - a))

/-- Scanner.addToken: append a token spanning `[start, current)` at the
current line. -/
def ScanState.addToken (s : ScanState) (t : TokenType) (lit : Option Lit) :
    ScanState :=
  { s with tokens :=
      s.tokens ++ [⟨t, strSlice s.source s.start s.current, lit, s.line⟩] }

/-- Scanner.match: conditionally consume an expected character. -/
def ScanState.matchChar (s : ScanState) (expected : Char) :
    Bool × ScanState :=
  if s.isAtEnd then (false, s)
  else if s.source.getD s.current '\x00' ≠ expected then (false, s)
  else (true, s.bump)

/-- The loop of Scanner.string: advance while the next character is not a
closing quote and the end has not been reached.  The body performs a bare
advance; in particular the line counter is not touched. -/
def stringLoop : Nat → ScanState → ScanState
  | 0, s => s
  | fuel + 1, s =>
    if s.peek ≠ '"' ∧ ¬ s.isAtEnd then stringLoop fuel s.bump else s

/-- Scanner.string: scan the remainder of a string literal (the opening quote
has been consumed).  An unterminated string raises the scan error; otherwise
the closing quote is consumed and a String token is emitted whose literal is
the verbatim text between the quotes. -/
def scanString (s : ScanState) : Except ScanError ScanState :=
  let s1 := stringLoop (s.source.length + 1 - s.current) s
  if s1.isAtEnd then
    .error ⟨s1.line, "Unterminated string."⟩
  else
    let s2 := s1.bump
    let value := strSlice s2.source (s2.start + 1) (s2.current - 1)
    .ok (s2.addToken .StringTok (some (.str value)))

/-- isDigit of the source. -/
def isDigitChar (c : Char) : Bool :=
  '0' ≤ c ∧ c ≤ '9'

/-- isAlpha of the source. -/
def isAlphaChar (c : Char) : Bool :=
  ('a' ≤ c ∧ c ≤ 'z') ∨ ('A' ≤ c ∧ c ≤ 'Z') ∨ c = '_'

/-- isAlphaNumeric of the source. -/
def isAlphaNumericChar (c : Char) : Bool :=
  isAlphaChar c ∨ isDigitChar c

/-- Advance while the next character is a digit (the digit loops of
Scanner.number). -/
def digitLoop : Nat → ScanState → ScanState
  | 0, s => s
  | fuel + 1, s =>
    if isDigitChar s.peek then digitLoop fuel s.bump else s

/-- Numeric value of a digit character. -/
def digitVal (c : Char) : Nat :=
  c.toNat - '0'.toNat

/-- The rational denoted by a decimal digit string with at most one dot,
modelling parseFloat on the lexemes the scanner feeds it. -/
def parseNumberChars (l : List Char) : ℚ :=
  let intPart := (l.takeWhile (fun c => c ≠ '.')).foldl
    (fun a c => 10 * a + digitVal c) 0
  let fracDigits := (l.dropWhile (fun c => c ≠ '.')).drop 1
  let frac := fracDigits.foldl (fun a c => 10 * a + digitVal c) 0
  (intPart : ℚ) + (frac : ℚ) / ((10 : ℚ) ^ fracDigits.length)

/-- Scanner.number: digits, optionally a dot followed by digits. -/
def scanNumber (s : ScanState) : ScanState :=
  let s1 := digitLoop s.source.length s
  let s2 :=
    if s1.peek = '.' ∧ isDigitChar s1.peekNext then
      digitLoop s1.source.length s1.bump
    else s1
  let value := parseNumberChars ((s2.source.drop s2.start).take
    (s2.current - s2.start))
  s2.addToken .NumberTok (some (.num value))

/-- The keyword table of the source (keywords.ts). -/
def keywordType (text : String) : Option TokenType :=
  if text = "and" then some .And
  else if text = "class" then some .Class
  else if text = "else" then some .Else
  else if text = "false" then some .False
  else if text = "for" then some .For
  else if text = "function" then some .Function
  else if text = "if" then some .If
  else if text = "nil" then some .Nil
  else if text = "or" then some .Or
  else if text = "print" then some .Print
  else if text = "return" then some .Return
  else if text = "super" then some .Super
  else if text = "this" then some .This
  else if text = "true" then some .True
  else if text = "var" then some .Var
  else if text = "while" then some .While
  else none

/-- Scanner.identifier: consume alphanumerics, then look the lexeme up in the
keyword table. -/
def scanIdentifier (s : ScanState) : ScanState :=
  let s1 := identLoop s.source.length s
  let text := strSlice s1.source s1.start s1.current
  s1.addToken ((keywordType text).getD .Identifier) none
where
  /-- Advance while the next character is alphanumeric. -/
  identLoop : Nat → ScanState → ScanState
    | 0, s => s
    | fuel + 1, s =>
      if isAlphaNumericChar s.peek then identLoop fuel s.bump else s

/-- The comment loop of Scanner.scanToken: skip to the end of the line. -/
def commentLoop : Nat → ScanState → ScanState
  | 0, s => s
  | fuel + 1, s =>
    if s.peek ≠ '\n' ∧ ¬ s.isAtEnd then commentLoop fuel s.bump else s

/-- Scanner.scanToken: consume one character and emit at most one token. -/
def scanToken (s0 : ScanState) : Except ScanError ScanState :=
  let c := s0.advanceChar
  let s := s0.bump
  if c = '(' then .ok (s.addToken .LeftParen none)
  else if c = ')' then .ok (s.addToken .RightParen none)
  else if c = '{' then .ok (s.addToken .LeftBrace none)
  else if c = '}' then .ok (s.addToken .RightBrace none)
  else if c = ',' then .ok (s.addToken .Comma none)
  else if c = '.' then .ok (s.addToken .Dot none)
  else if c = '-' then .ok (s.addToken .Minus none)
  else if c = '+' then .ok (s.addToken .Plus none)
  else if c = ';' then .ok (s.addToken .Semicolon none)
  else if c = '*' then .ok (s.addToken .Star none)
  else if c = '%' then .ok (s.addToken .Percent none)
  else if c = '!' then
    let (m, s') := s.matchChar '='
    .ok (s'.addToken (if m then .BangEqual else .Bang) none)
  else if c = '=' then
    let (m, s') := s.matchChar '='
    .ok (s'.addToken (if m then .EqualEqual else .Equal) none)
  else if c = '<' then
    let (m, s') := s.matchChar '='
    .ok (s'.addToken (if m then .LessEqual else .Less) none)
  else if c = '>' then
    let (m, s') := s.matchChar '='
    .ok (s'.addToken (if m then .GreaterEqual else .Greater) none)
  else if c = '/' then
    let (m, s') := s.matchChar '/'
    if m then .ok (commentLoop s'.source.length s')
    else .ok (s'.addToken .Slash none)
  else if c = ' ' ∨ c = '\x0d' ∨ c = '\t' then .ok s
  else if c = '\n' then .ok { s with line := s.line + 1 }
  else if c = '"' then scanString s
  else if isDigitChar c then .ok (scanNumber s)
  else if isAlphaChar c then .ok (scanIdentifier s)
  else .error ⟨s.line, "Unexpected character."⟩

/-- The main loop of Scanner.scanTokens. -/
def scanTokensLoop : Nat → ScanState → Except ScanError ScanState
  | 0, s => .ok s
  | fuel + 1, s =>
    if s.isAtEnd then .ok s
    else
      match scanToken { s with start := s.current } with
      | .error e => .error e
      | .ok s' => scanTokensLoop fuel s'

/-- Scanner.scanTokens on a whole source string: run the scan loop and append
the EOF token. -/
def scanSource (src : String) : Except ScanError (List Token) :=
  let s0 : ScanState := ⟨src.toList, [], 0, 0, 1⟩
  match scanTokensLoop (src.toList.length + 1) s0 with
  | .error e => .error e
  | .ok s => .ok (s.tokens ++ [⟨.EOF, "", none, s.line⟩])

/-! ## Abstract syntax tree

Translation of the Expression and Statement class hierarchies.  Following the
design note of the specification, expression identity (used as the key of the
resolver side table) is modelled by a NodeId carried by the reference
expressions (Variable, Assign, This, Super); the parser allocates the ids from
a counter. -/

/-- The payload of a LiteralExpression (null, boolean, number or string). -/
inductive LitVal
  | nil
  | boolean (b : Bool)
  | num (q : ℚ)
  | str (s : String)
deriving DecidableEq, Repr

/-- Expression nodes of the AST. -/
inductive Expr
  | assign (id : Nat) (name : Token) (value : Expr)
  | binary (left : Expr) (operator : Token) (right : Expr)
  | logical (left : Expr) (operator : Token) (right : Expr)
  | grouping (expression : Expr)
  | lit (value : LitVal)
  | unary (operator : Token) (right : Expr)
  | varE (id : Nat) (name : Token)
  | call (callee : Expr) (paren : Token) (args : List Expr)
  | getE (object : Expr) (name : Token)
  | setE (object : Expr) (name : Token) (value : Expr)
  | thisE (id : Nat) (keyword : Token)
  | superE (id : Nat) (keyword : Token) (method : Token)
deriving Repr

/-- A superclass reference of a class statement: the Variable expression
naming the superclass (id and name token). -/
structure VarRef where
  id : Nat
  name : Token
deriving DecidableEq, Repr

mutual
/-- Statement nodes of the AST.  The ClassStatement shape (name, optional
superclass, methods) follows the data model of the specification; the class
itself is declared in a file of the repository whose text is not available,
and all of its fields are dictated by its uses in the parser, resolver and
interpreter. -/
inductive Stmt
  | expression (e : Expr)
  | print (e : Expr)
  | varDecl (name : Token) (initializer : Option Expr)
  | block (stmts : List Stmt)
  | ifS (condition : Expr) (thenBranch : Stmt) (elseBranch : Option Stmt)
  | whileS (condition : Expr) (body : Stmt)
  | funDecl (f : FunctionStmt)
  | returnS (keyword : Token) (value : Option Expr)
  | classS (name : Token) (superClass : Option VarRef)
      (methods : List FunctionStmt)
deriving Repr

/-- A FunctionStatement: name, parameter tokens, body statements. -/
inductive FunctionStmt
  | mk (name : Token) (params : List Token) (body : List Stmt)
deriving Repr
end

/-- The name of a function statement. -/
def FunctionStmt.name : FunctionStmt → Token
  | .mk n _ _ => n

/-- The parameter list of a function statement. -/
def FunctionStmt.params : FunctionStmt → List Token
  | .mk _ p _ => p

/-- The body of a function statement. -/
def FunctionStmt.body : FunctionStmt → List Stmt
  | .mk _ _ b => b

/-! ## Parser

Translation of the Parser class (the variant with functions and classes).
The parser state holds the token vector, the cursor, the accumulated
SyntaxError messages (Parser.error pushes and returns; consume additionally
throws) and the NodeId counter.  Thrown parse errors travel in the `Except`
layer and are caught at the declaration boundary by the parse loop. -/

/-- The mutable fields of the Parser class, plus the NodeId counter. -/
structure PState where
  tokens : List Token
  current : Nat
  errors : List String
  nextId : Nat
deriving Repr

/-- The parser computation monad: state plus thrown SyntaxError. -/
def PM (α : Type) : Type :=
  PState → (Except String α) × PState

instance : Monad PM where
  pure a := fun st => (.ok a, st)
  bind m f := fun st =>
    match m st with
    | (.ok a, st') => f a st'
    | (.error e, st') => (.error e, st')

/-- Throw a parse error (the exception side of `throw this.error(...)`). -/
def throwP {α : Type} (e : String) : PM α :=
  fun st => (.error e, st)

/-- A fallback token for out-of-range accesses (the token vector always ends
in EOF, so the guarded accesses of the source never go out of range). -/
def eofToken : Token :=
  ⟨.EOF, "", none, 0⟩

/-- Parser.peek. -/
def Parser.peek : PM Token :=
  fun st => (.ok (st.tokens.getD st.current eofToken), st)

/-- Parser.previous. -/
def Parser.previous : PM Token :=
  fun st => (.ok (st.tokens.getD (st.current - 1) eofToken), st)

/-- Parser.isAtEnd. -/
def Parser.isAtEnd : PM Bool := do
  pure ((← Parser.peek).type = .EOF)

/-- Parser.check. -/
def Parser.checkT (t : TokenType) : PM Bool := do
  if (← Parser.isAtEnd) then pure false
  else pure ((← Parser.peek).type = t)

/-- Parser.advance. -/
def Parser.advance : PM Token :=
  fun st =>
    let st' :=
      if (st.tokens.getD st.current eofToken).type = .EOF then st
      else { st with current := st.current + 1 }
    (.ok (st'.tokens.getD (st'.current - 1) eofToken), st')

/-- Parser.match over a list of kinds. -/
def Parser.matchT : List TokenType → PM Bool
  | [] => pure false
  | t :: ts => do
    if (← Parser.checkT t) then do
      let _ ← Parser.advance
      pure true
    else Parser.matchT ts

/-- Parser.error: record the SyntaxError message and return it (the caller
decides whether to throw it). -/
def Parser.mkError (msg : String) : PM String :=
  fun st => (.ok msg, { st with errors := st.errors ++ [msg] })

/-- Parser.consume: advance past an expected token kind or throw. -/
def Parser.consume (t : TokenType) (msg : String) : PM Token := do
  if (← Parser.checkT t) then Parser.advance
  else do
    let e ← Parser.mkError msg
    throwP e

/-- Allocate a fresh NodeId (models expression object identity, §9 of the
specification). -/
def Parser.freshId : PM Nat :=
  fun st => (.ok st.nextId, { st with nextId := st.nextId + 1 })

/-- The literal value of a Number or String token. -/
def litOfToken (l : Option Lit) : LitVal :=
  match l with
  | some (.num q) => .num q
  | some (.str s) => .str s
  | none => .nil

mutual

/-- Parser.declaration. -/
def Parser.declaration (fuel : Nat) : PM Stmt :=
  match fuel with
  | 0 => throwP "out of fuel"
  | fuel + 1 => do
    if (← Parser.matchT [.Class]) then Parser.classDeclaration fuel
    else if (← Parser.matchT [.Function]) then do
      let f ← Parser.functionDeclaration fuel "function"
      pure (.funDecl f)
    else if (← Parser.matchT [.Var]) then Parser.varDeclaration fuel
    else Parser.statement fuel

/-- Parser.classDeclaration: name, brace, methods, brace.  The source passes
no superclass argument to the ClassStatement constructor. -/
def Parser.classDeclaration (fuel : Nat) : PM Stmt :=
  match fuel with
  | 0 => throwP "out of fuel"
  | fuel + 1 => do
    let name ← Parser.consume .Identifier "Expect class name."
    let _ ← Parser.consume .LeftBrace "Expect \x7b before class body."
    let methods ← Parser.classMethodsLoop fuel []
    let _ ← Parser.consume .RightBrace "Expect \x7d after class"
    pure (.classS name none methods)

/-- The method loop of Parser.classDeclaration. -/
def Parser.classMethodsLoop (fuel : Nat) (acc : List FunctionStmt) :
    PM (List FunctionStmt) :=
  match fuel with
  | 0 => throwP "out of fuel"
  | fuel + 1 => do
    if (← Parser.checkT .RightBrace) then pure acc
    else if (← Parser.isAtEnd) then pure acc
    else do
      let m ← Parser.functionDeclaration fuel "method"
      Parser.classMethodsLoop fuel (acc ++ [m])

/-- Parser.functionDeclaration. -/
def Parser.functionDeclaration (fuel : Nat) (kind : String) :
    PM FunctionStmt :=
  match fuel with
  | 0 => throwP "out of fuel"
  | fuel + 1 => do
    let name ← Parser.consume .Identifier ("Expect " ++ kind ++ " name.")
    let _ ← Parser.consume .LeftParen ("Expect ( after " ++ kind ++ " name.")
    let params ←
      if (← Parser.checkT .RightParen) then pure []
      else Parser.paramsLoop fuel []
    let _ ← Parser.consume .RightParen "Expect ) after parameters."
    let _ ← Parser.consume .LeftBrace ("Expect \x7b before " ++ kind ++ " body.")
    let body ← Parser.block fuel
    pure (.mk name params body)

/-- The do-while parameter loop of Parser.functionDeclaration: the arity
diagnostic is recorded (never thrown) when 255 parameters have already been
collected, then one more parameter name is consumed. -/
def Parser.paramsLoop (fuel : Nat) (params : List Token) : PM (List Token) :=
  match fuel with
  | 0 => throwP "out of fuel"
  | fuel + 1 => do
    if params.length ≥ 255 then do
      let _ ← Parser.mkError "Cannot have more than 255 parameters"
      pure ()
    else pure ()
    let p ← Parser.consume .Identifier "Expect parameter name."
    let params := params ++ [p]
    if (← Parser.matchT [.Comma]) then Parser.paramsLoop fuel params
    else pure params

/-- Parser.varDeclaration. -/
def Parser.varDeclaration (fuel : Nat) : PM Stmt :=
  match fuel with
  | 0 => throwP "out of fuel"
  | fuel + 1 => do
    let name ← Parser.consume .Identifier "Expect variable name."
    let init ←
      if (← Parser.matchT [.Equal]) then do
        let e ← Parser.expression fuel
        pure (some e)
      else pure none
    let _ ← Parser.consume .Semicolon "Expect ; after variable declaration."
    pure (.varDecl name init)

/-- Parser.statement. -/
def Parser.statement (fuel : Nat) : PM Stmt :=
  match fuel with
  | 0 => throwP "out of fuel"
  | fuel + 1 => do
    if (← Parser.matchT [.For]) then Parser.forStatement fuel
    else if (← Parser.matchT [.If]) then Parser.ifStatement fuel
    else if (← Parser.matchT [.Print]) then Parser.printStatement fuel
    else if (← Parser.matchT [.Return]) then Parser.returnStatement fuel
    else if (← Parser.matchT [.While]) then Parser.whileStatement fuel
    else if (← Parser.matchT [.LeftBrace]) then do
      let stmts ← Parser.block fuel
      pure (.block stmts)
    else Parser.expressionStatement fuel

/-- Parser.returnStatement. -/
def Parser.returnStatement (fuel : Nat) : PM Stmt :=
  match fuel with
  | 0 => throwP "out of fuel"
  | fuel + 1 => do
    let keyword ← Parser.previous
    let value ←
      if (← Parser.checkT .Semicolon) then pure none
      else do
        let e ← Parser.expression fuel
        pure (some e)
    let _ ← Parser.consume .Semicolon "Expect ; after return value"
    pure (.returnS keyword value)

/-- Parser.forStatement, including the desugaring into while. -/
def Parser.forStatement (fuel : Nat) : PM Stmt :=
  match fuel with
  | 0 => throwP "out of fuel"
  | fuel + 1 => do
    let _ ← Parser.consume .LeftParen "Expect ( after for."
    let init ←
      if (← Parser.matchT [.Semicolon]) then pure none
      else if (← Parser.matchT [.Var]) then do
        let s ← Parser.varDeclaration fuel
        pure (some s)
      else do
        let s ← Parser.expressionStatement fuel
        pure (some s)
    let condition ←
      if (← Parser.checkT .Semicolon) then pure none
      else do
        let e ← Parser.expression fuel
        pure (some e)
    let _ ← Parser.consume .Semicolon "Expect ; after loop condition."
    let increment ←
      if (← Parser.checkT .RightParen) then pure none
      else do
        let e ← Parser.expression fuel
        pure (some e)
    let _ ← Parser.consume .RightParen "Expect ) after for clauses."
    let body ← Parser.statement fuel
    let body :=
      match increment with
      | some inc => Stmt.block [body, .expression inc]
      | none => body
    let condition := condition.getD (.lit (.boolean true))
    let body := Stmt.whileS condition body
    let body :=
      match init with
      | some i => Stmt.block [i, body]
      | none => body
    pure body

/-- Parser.ifStatement. -/
def Parser.ifStatement (fuel : Nat) : PM Stmt :=
  match fuel with
  | 0 => throwP "out of fuel"
  | fuel + 1 => do
    let _ ← Parser.consume .LeftParen "Expect ( after if."
    let condition ← Parser.expression fuel
    let _ ← Parser.consume .RightParen "Expect ) after if condition."
    let thenBranch ← Parser.statement fuel
    let elseBranch ←
      if (← Parser.matchT [.Else]) then do
        let s ← Parser.statement fuel
        pure (some s)
      else pure none
    pure (.ifS condition thenBranch elseBranch)

/-- Parser.printStatement. -/
def Parser.printStatement (fuel : Nat) : PM Stmt :=
  match fuel with
  | 0 => throwP "out of fuel"
  | fuel + 1 => do
    let value ← Parser.expression fuel
    let _ ← Parser.consume .Semicolon "Expect ; after value."
    pure (.print value)

/-- Parser.whileStatement. -/
def Parser.whileStatement (fuel : Nat) : PM Stmt :=
  match fuel with
  | 0 => throwP "out of fuel"
  | fuel + 1 => do
    let _ ← Parser.consume .LeftParen "Expect ( after while."
    let condition ← Parser.expression fuel
    let _ ← Parser.consume .RightParen "Expect ) after while condition."
    let body ← Parser.statement fuel
    pure (.whileS condition body)

/-- Parser.expressionStatement. -/
def Parser.expressionStatement (fuel : Nat) : PM Stmt :=
  match fuel with
  | 0 => throwP "out of fuel"
  | fuel + 1 => do
    let value ← Parser.expression fuel
    let _ ← Parser.consume .Semicolon "Expect ; after expression."
    pure (.expression value)

/-- Parser.expression. -/
def Parser.expression (fuel : Nat) : PM Expr :=
  match fuel with
  | 0 => throwP "out of fuel"
  | fuel + 1 => Parser.assignment fuel

/-- Parser.assignment: an Assign node for a Variable target, otherwise a
recorded (non-thrown) invalid-target diagnostic. -/
def Parser.assignment (fuel : Nat) : PM Expr :=
  match fuel with
  | 0 => throwP "out of fuel"
  | fuel + 1 => do
    let e ← Parser.orExpr fuel
    if (← Parser.matchT [.Equal]) then do
      let _equals ← Parser.previous
      let value ← Parser.assignment fuel
      match e with
      | .varE _ name => do
        let i ← Parser.freshId
        pure (.assign i name value)
      | _ => do
        let _ ← Parser.mkError "Invalid assignment target"
        pure e
    else pure e

/-- Parser.or. -/
def Parser.orExpr (fuel : Nat) : PM Expr :=
  match fuel with
  | 0 => throwP "out of fuel"
  | fuel + 1 => do
    let e ← Parser.andExpr fuel
    Parser.orLoop fuel e

/-- The operator loop of Parser.or. -/
def Parser.orLoop (fuel : Nat) (e : Expr) : PM Expr :=
  match fuel with
  | 0 => throwP "out of fuel"
  | fuel + 1 => do
    if (← Parser.matchT [.Or]) then do
      let op ← Parser.previous
      let right ← Parser.andExpr fuel
      Parser.orLoop fuel (.logical e op right)
    else pure e

/-- Parser.and. -/
def Parser.andExpr (fuel : Nat) : PM Expr :=
  match fuel with
  | 0 => throwP "out of fuel"
  | fuel + 1 => do
    let e ← Parser.equality fuel
    Parser.andLoop fuel e

/-- The operator loop of Parser.and. -/
def Parser.andLoop (fuel : Nat) (e : Expr) : PM Expr :=
  match fuel with
  | 0 => throwP "out of fuel"
  | fuel + 1 => do
    if (← Parser.matchT [.And]) then do
      let op ← Parser.previous
      let right ← Parser.equality fuel
      Parser.andLoop fuel (.logical e op right)
    else pure e

/-- Parser.equality. -/
def Parser.equality (fuel : Nat) : PM Expr :=
  match fuel with
  | 0 => throwP "out of fuel"
  | fuel + 1 => do
    let e ← Parser.comparison fuel
    Parser.equalityLoop fuel e

/-- The operator loop of Parser.equality. -/
def Parser.equalityLoop (fuel : Nat) (e : Expr) : PM Expr :=
  match fuel with
  | 0 => throwP "out of fuel"
  | fuel + 1 => do
    if (← Parser.matchT [.BangEqual, .EqualEqual]) then do
      let op ← Parser.previous
      let right ← Parser.comparison fuel
      Parser.equalityLoop fuel (.binary e op right)
    else pure e

/-- Parser.comparison. -/
def Parser.comparison (fuel : Nat) : PM Expr :=
  match fuel with
  | 0 => throwP "out of fuel"
  | fuel + 1 => do
    let e ← Parser.term fuel
    Parser.comparisonLoop fuel e

/-- The operator loop of Parser.comparison. -/
def Parser.comparisonLoop (fuel : Nat) (e : Expr) : PM Expr :=
  match fuel with
  | 0 => throwP "out of fuel"
  | fuel + 1 => do
    if (← Parser.matchT [.Greater, .GreaterEqual, .Less, .LessEqual]) then do
      let op ← Parser.previous
      let right ← Parser.term fuel
      Parser.comparisonLoop fuel (.binary e op right)
    else pure e

/-- Parser.term. -/
def Parser.term (fuel : Nat) : PM Expr :=
  match fuel with
  | 0 => throwP "out of fuel"
  | fuel + 1 => do
    let e ← Parser.factor fuel
    Parser.termLoop fuel e

/-- The operator loop of Parser.term. -/
def Parser.termLoop (fuel : Nat) (e : Expr) : PM Expr :=
  match fuel with
  | 0 => throwP "out of fuel"
  | fuel + 1 => do
    if (← Parser.matchT [.Minus, .Plus]) then do
      let op ← Parser.previous
      let right ← Parser.factor fuel
      Parser.termLoop fuel (.binary e op right)
    else pure e

/-- Parser.factor. -/
def Parser.factor (fuel : Nat) : PM Expr :=
  match fuel with
  | 0 => throwP "out of fuel"
  | fuel + 1 => do
    let e ← Parser.unary fuel
    Parser.factorLoop fuel e

/-- The operator loop of Parser.factor. -/
def Parser.factorLoop (fuel : Nat) (e : Expr) : PM Expr :=
  match fuel with
  | 0 => throwP "out of fuel"
  | fuel + 1 => do
    if (← Parser.matchT [.Slash, .Star, .Percent]) then do
      let op ← Parser.previous
      let right ← Parser.unary fuel
      Parser.factorLoop fuel (.binary e op right)
    else pure e

/-- Parser.unary. -/
def Parser.unary (fuel : Nat) : PM Expr :=
  match fuel with
  | 0 => throwP "out of fuel"
  | fuel + 1 => do
    if (← Parser.matchT [.Bang, .Minus]) then do
      let op ← Parser.previous
      let right ← Parser.unary fuel
      pure (.unary op right)
    else Parser.callExpr fuel

/-- Parser.call. -/
def Parser.callExpr (fuel : Nat) : PM Expr :=
  match fuel with
  | 0 => throwP "out of fuel"
  | fuel + 1 => do
    let e ← Parser.primary fuel
    Parser.callLoop fuel e

/-- The invocation loop of Parser.call. -/
def Parser.callLoop (fuel : Nat) (e : Expr) : PM Expr :=
  match fuel with
  | 0 => throwP "out of fuel"
  | fuel + 1 => do
    if (← Parser.matchT [.LeftParen]) then do
      let e' ← Parser.finishCall fuel e
      Parser.callLoop fuel e'
    else pure e

/-- Parser.finishCall. -/
def Parser.finishCall (fuel : Nat) (callee : Expr) : PM Expr :=
  match fuel with
  | 0 => throwP "out of fuel"
  | fuel + 1 => do
    let args ←
      if (← Parser.checkT .RightParen) then pure []
      else Parser.argsLoop fuel []
    let paren ← Parser.consume .RightParen "Expect ) after arguments."
    pure (.call callee paren args)

/-- The do-while argument loop of Parser.finishCall: the arity diagnostic is
recorded (never thrown) when 255 arguments have already been collected. -/
def Parser.argsLoop (fuel : Nat) (args : List Expr) : PM (List Expr) :=
  match fuel with
  | 0 => throwP "out of fuel"
  | fuel + 1 => do
    if args.length ≥ 255 then do
      let _ ← Parser.mkError "Cannot have more than 255 arguments"
      pure ()
    else pure ()
    let a ← Parser.expression fuel
    let args := args ++ [a]
    if (← Parser.matchT [.Comma]) then Parser.argsLoop fuel args
    else pure args

/-- Parser.primary. -/
def Parser.primary (fuel : Nat) : PM Expr :=
  match fuel with
  | 0 => throwP "out of fuel"
  | fuel + 1 => do
    if (← Parser.matchT [.False]) then pure (.lit (.boolean false))
    else if (← Parser.matchT [.True]) then pure (.lit (.boolean true))
    else if (← Parser.matchT [.Nil]) then pure (.lit .nil)
    else if (← Parser.matchT [.NumberTok, .StringTok]) then do
      let p ← Parser.previous
      pure (.lit (litOfToken p.literal))
    else if (← Parser.matchT [.Identifier]) then do
      let p ← Parser.previous
      let i ← Parser.freshId
      pure (.varE i p)
    else if (← Parser.matchT [.LeftParen]) then do
      let e ← Parser.expression fuel
      let _ ← Parser.consume .RightParen "Expect ) after expression."
      pure (.grouping e)
    else do
      let e ← Parser.mkError "Expected expression."
      throwP e

/-- The declaration loop of Parser.block. -/
def Parser.blockLoop (fuel : Nat) (acc : List Stmt) : PM (List Stmt) :=
  match fuel with
  | 0 => throwP "out of fuel"
  | fuel + 1 => do
    if (← Parser.checkT .RightBrace) then pure acc
    else if (← Parser.isAtEnd) then pure acc
    else do
      let s ← Parser.declaration fuel
      Parser.blockLoop fuel (acc ++ [s])

/-- Parser.block. -/
def Parser.block (fuel : Nat) : PM (List Stmt) :=
  match fuel with
  | 0 => throwP "out of fuel"
  | fuel + 1 => do
    let stmts ← Parser.blockLoop fuel []
    let _ ← Parser.consume .RightBrace "Expect \x7d after block."
    pure stmts

end

/-- The skip loop of Parser.synchronize. -/
def Parser.synchronizeLoop : Nat → PM Unit
  | 0 => pure ()
  | fuel + 1 => do
    if (← Parser.isAtEnd) then pure ()
    else if (← Parser.previous).type = .Semicolon then pure ()
    else
      match (← Parser.peek).type with
      | .Class | .Function | .Var | .For | .If | .While | .Print | .Return =>
        pure ()
      | _ => do
        let _ ← Parser.advance
        Parser.synchronizeLoop fuel

/-- Parser.synchronize. -/
def Parser.synchronize (fuel : Nat) : PM Unit := do
  let _ ← Parser.advance
  Parser.synchronizeLoop fuel

/-- The loop of Parser.parse: parse declarations until EOF, catching thrown
parse errors at the declaration boundary and synchronizing. -/
def Parser.parseLoop : Nat → List Stmt → PState → List Stmt × PState
  | 0, acc, st => (acc, st)
  | fuel + 1, acc, st =>
    if (st.tokens.getD st.current eofToken).type = .EOF then (acc, st)
    else
      match Parser.declaration fuel st with
      | (.ok s, st') => Parser.parseLoop fuel (acc ++ [s]) st'
      | (.error _, st') =>
        let (_, st'') := Parser.synchronize fuel st'
        Parser.parseLoop fuel acc st''

/-- Parser.parse: the produced statements and the accumulated SyntaxError
messages. -/
def Parser.parse (fuel : Nat) (tokens : List Token) :
    List Stmt × List String :=
  let (stmts, st) := Parser.parseLoop fuel [] ⟨tokens, 0, [], 0⟩
  (stmts, st.errors)

/-! ## Association lists

JS Map objects (insertion ordered) are modelled as association lists:
`listSet` is Map.set (update in place or append), `listLookup` is Map.get,
`listHas` is Map.has. -/

/-- Map.get. -/
def listLookup {κ α : Type} [DecidableEq κ] : List (κ × α) → κ → Option α
  | [], _ => none
  | (k, v) :: rest, key => if k = key then some v else listLookup rest key

/-- Map.has. -/
def listHas {κ α : Type} [DecidableEq κ] (m : List (κ × α)) (key : κ) :
    Bool :=
  (listLookup m key).isSome

/-- Map.set. -/
def listSet {κ α : Type} [DecidableEq κ] : List (κ × α) → κ → α → List (κ × α)
  | [], key, v => [(key, v)]
  | (k, a) :: rest, key, v =>
    if k = key then (k, v) :: rest else (k, a) :: listSet rest key v

/-! ## Resolver

Translation of the Resolve class (the variant with classes, `this` and
`super`).  The scope stack is a list with the innermost scope at the head
(the source pushes and pops at the end of a JS array; depths computed by
resolveLocal are identical).  Resolve.error throws a SyntaxError, modelled in
the `Except` layer.  The interpreter side table written through
`interpreter.resolve(expr, depth)` is the `locals` field, keyed by NodeId. -/

/-- The FunctionType enum of the resolver. -/
inductive FunctionType
  | NONE
  | FUNCTION
  | INITIALIZER
  | METHOD
deriving DecidableEq, Repr

/-- The ClassType enum of the resolver. -/
inductive ClassType
  | NONE
  | CLASS
  | SUBCLASS
deriving DecidableEq, Repr

/-- The mutable fields of the Resolve class, plus the interpreter side
table it writes into. -/
structure RState where
  scopes : List (List (String × Bool))
  currentFunction : FunctionType
  currentClass : ClassType
  locals : List (Nat × Nat)
deriving Repr

/-- The resolver computation monad: state plus thrown SyntaxError. -/
def RM (α : Type) : Type :=
  RState → (Except String α) × RState

instance : Monad RM where
  pure a := fun st => (.ok a, st)
  bind m f := fun st =>
    match m st with
    | (.ok a, st') => f a st'
    | (.error e, st') => (.error e, st')

/-- Resolve.error: throw. -/
def throwR {α : Type} (e : String) : RM α :=
  fun st => (.error e, st)

/-- Resolve.beginScope. -/
def Resolve.beginScope : RM Unit :=
  fun st => (.ok (), { st with scopes := [] :: st.scopes })

/-- Resolve.endScope. -/
def Resolve.endScope : RM Unit :=
  fun st => (.ok (), { st with scopes := st.scopes.tail })

/-- Write through the innermost scope (scopes[scopes.length - 1] of the
source; the source only uses it while at least one scope is open). -/
def Resolve.setTop (k : String) (b : Bool) : RM Unit :=
  fun st =>
    match st.scopes with
    | [] => (.ok (), st)
    | s :: rest => (.ok (), { st with scopes := listSet s k b :: rest })

/-- Resolve.declare: mark the name as declared-but-undefined in the innermost
scope; redeclaring a name in the same scope is an error. -/
def Resolve.declare (name : Token) : RM Unit :=
  fun st =>
    match st.scopes with
    | [] => (.ok (), st)
    | s :: rest =>
      if listHas s name.lexeme then
        (.error ("Already a variable with " ++ name.lexeme ++
          " in this scope."), st)
      else
        (.ok (), { st with scopes := listSet s name.lexeme false :: rest })

/-- Resolve.define: mark the name as defined in the innermost scope. -/
def Resolve.define (name : Token) : RM Unit :=
  fun st =>
    match st.scopes with
    | [] => (.ok (), st)
    | s :: rest =>
      (.ok (), { st with scopes := listSet s name.lexeme true :: rest })

/-- The scope walk of Resolve.resolveLocal: depth of the innermost scope
containing the name. -/
def Resolve.findDepth : List (List (String × Bool)) → String → Nat →
    Option Nat
  | [], _, _ => none
  | s :: rest, name, j =>
    if listHas s name then some j else Resolve.findDepth rest name (j + 1)

/-- Resolve.resolveLocal: record the depth of the innermost scope containing
the name into the interpreter side table, or record nothing. -/
def Resolve.resolveLocal (id : Nat) (name : Token) : RM Unit :=
  fun st =>
    match Resolve.findDepth st.scopes name.lexeme 0 with
    | some d => (.ok (), { st with locals := listSet st.locals id d })
    | none => (.ok (), st)

/-- Read the currentFunction register. -/
def Resolve.getCurrentFunction : RM FunctionType :=
  fun st => (.ok st.currentFunction, st)

/-- Write the currentFunction register. -/
def Resolve.setCurrentFunction (t : FunctionType) : RM Unit :=
  fun st => (.ok (), { st with currentFunction := t })

/-- Read the currentClass register. -/
def Resolve.getCurrentClass : RM ClassType :=
  fun st => (.ok st.currentClass, st)

/-- Write the currentClass register. -/
def Resolve.setCurrentClass (t : ClassType) : RM Unit :=
  fun st => (.ok (), { st with currentClass := t })

/-- Read the whole resolver state (used for the scope peeks of
visitVariableExpression). -/
def Resolve.getState : RM RState :=
  fun st => (.ok st, st)

/-- The parameter loop of Resolve.resolveFunction. -/
def Resolve.declareParams (params : List Token) : RM Unit :=
  match params with
  | [] => pure ()
  | p :: rest => do
    Resolve.declare p
    Resolve.define p
    Resolve.declareParams rest

mutual

/-- Resolve.visit* on expressions. -/
def Resolve.resolveExpr (fuel : Nat) (e : Expr) : RM Unit :=
  match fuel with
  | 0 => throwR "out of fuel"
  | fuel + 1 =>
    match e with
    | .assign id name value => do
      Resolve.resolveExpr fuel value
      Resolve.resolveLocal id name
    | .binary l _ r => do
      Resolve.resolveExpr fuel l
      Resolve.resolveExpr fuel r
    | .logical l _ r => do
      Resolve.resolveExpr fuel l
      Resolve.resolveExpr fuel r
    | .grouping e => Resolve.resolveExpr fuel e
    | .lit _ => pure ()
    | .unary _ r => Resolve.resolveExpr fuel r
    | .varE id name => do
      let st ← Resolve.getState
      match st.scopes with
      | s :: _ =>
        if listLookup s name.lexeme = some false then
          throwR "Cannot read local variable and its own initializer."
        else Resolve.resolveLocal id name
      | [] => Resolve.resolveLocal id name
    | .call callee _ args => do
      Resolve.resolveExpr fuel callee
      Resolve.resolveExprs fuel args
    | .getE obj _ => Resolve.resolveExpr fuel obj
    | .setE obj _ value => do
      Resolve.resolveExpr fuel value
      Resolve.resolveExpr fuel obj
    | .thisE id keyword => do
      let cc ← Resolve.getCurrentClass
      if cc = .NONE then
        throwR "Cannot use this outside of a class"
      else Resolve.resolveLocal id keyword
    | .superE id keyword _ => do
      let cc ← Resolve.getCurrentClass
      if cc = .NONE then
        throwR "Cannot use super outside of a class"
      else if cc ≠ .SUBCLASS then
        throwR "Cannot use super in a class with no superclass."
      else Resolve.resolveLocal id keyword

/-- Resolve expression lists (call arguments). -/
def Resolve.resolveExprs (fuel : Nat) (es : List Expr) : RM Unit :=
  match fuel with
  | 0 => throwR "out of fuel"
  | fuel + 1 =>
    match es with
    | [] => pure ()
    | e :: rest => do
      Resolve.resolveExpr fuel e
      Resolve.resolveExprs fuel rest

/-- Resolve.visit* on statements. -/
def Resolve.resolveStmt (fuel : Nat) (s : Stmt) : RM Unit :=
  match fuel with
  | 0 => throwR "out of fuel"
  | fuel + 1 =>
    match s with
    | .expression e => Resolve.resolveExpr fuel e
    | .print e => Resolve.resolveExpr fuel e
    | .varDecl name init => do
      Resolve.declare name
      match init with
      | some e => Resolve.resolveExpr fuel e
      | none => pure ()
      Resolve.define name
    | .block stmts => do
      Resolve.beginScope
      Resolve.resolveStmts fuel stmts
      Resolve.endScope
    | .ifS c t e => do
      Resolve.resolveExpr fuel c
      Resolve.resolveStmt fuel t
      match e with
      | some s => Resolve.resolveStmt fuel s
      | none => pure ()
    | .whileS c body => do
      Resolve.resolveExpr fuel c
      Resolve.resolveStmt fuel body
    | .funDecl f => do
      Resolve.declare f.name
      Resolve.define f.name
      Resolve.resolveFunction fuel f .FUNCTION
    | .returnS _ value => do
      let cf ← Resolve.getCurrentFunction
      if cf = .NONE then throwR "Cannot return from top-level code."
      else
        match value with
        | some e => do
          if cf = .INITIALIZER then
            throwR "Cannot return a value from an initializer."
          else Resolve.resolveExpr fuel e
        | none => pure ()
    | .classS name superClass methods => do
      let enclosingClass ← Resolve.getCurrentClass
      Resolve.setCurrentClass .CLASS
      Resolve.declare name
      Resolve.define name
      match superClass with
      | some sc =>
        if name.lexeme = sc.name.lexeme then
          throwR "A class cannot inherit from itself."
        else do
          Resolve.setCurrentClass .SUBCLASS
          Resolve.resolveExpr fuel (.varE sc.id sc.name)
          Resolve.beginScope
          Resolve.setTop "super" true
          Resolve.classBody fuel methods
          Resolve.endScope
          Resolve.setCurrentClass enclosingClass
      | none => do
        Resolve.classBody fuel methods
        Resolve.setCurrentClass enclosingClass

/-- The shared tail of Resolve.visitClassStatement: open the `this` scope,
resolve every method with function kind METHOD, close the scope.  (The
source computes `const declaration = FunctionType.METHOD` for every
method.) -/
def Resolve.classBody (fuel : Nat) (methods : List FunctionStmt) : RM Unit :=
  match fuel with
  | 0 => throwR "out of fuel"
  | fuel + 1 => do
    Resolve.beginScope
    Resolve.setTop "this" true
    Resolve.resolveMethods fuel methods
    Resolve.endScope

/-- The method loop of Resolve.visitClassStatement. -/
def Resolve.resolveMethods (fuel : Nat) (methods : List FunctionStmt) :
    RM Unit :=
  match fuel with
  | 0 => throwR "out of fuel"
  | fuel + 1 =>
    match methods with
    | [] => pure ()
    | m :: rest => do
      Resolve.resolveFunction fuel m .METHOD
      Resolve.resolveMethods fuel rest

/-- Resolve.resolveFunction. -/
def Resolve.resolveFunction (fuel : Nat) (f : FunctionStmt)
    (type : FunctionType) : RM Unit :=
  match fuel with
  | 0 => throwR "out of fuel"
  | fuel + 1 => do
    let enclosingFunction ← Resolve.getCurrentFunction
    Resolve.setCurrentFunction type
    Resolve.beginScope
    Resolve.declareParams f.params
    Resolve.resolveStmts fuel f.body
    Resolve.endScope
    Resolve.setCurrentFunction enclosingFunction

/-- Resolve statement lists. -/
def Resolve.resolveStmts (fuel : Nat) (stmts : List Stmt) : RM Unit :=
  match fuel with
  | 0 => throwR "out of fuel"
  | fuel + 1 =>
    match stmts with
    | [] => pure ()
    | s :: rest => do
      Resolve.resolveStmt fuel s
      Resolve.resolveStmts fuel rest

end

/-- The initial resolver state: no scopes, NONE registers, empty side
table. -/
def initRState : RState :=
  ⟨[], .NONE, .NONE, []⟩

/-! ## Runtime values

Translation of the runtime value representation.  Environments and instances
are mutable shared objects; they live in explicit heaps inside the
interpreter state and are referenced by index.  A LoxFunction holds its
declaration, a reference to its closure environment and the is-initializer
flag; a LoxClass holds its name, optional superclass and method table. -/

/-- The LoxFunction runtime object (the variant with bind and the
is-initializer flag, as used by classes). -/
structure LoxFunctionV where
  declaration : FunctionStmt
  closure : Nat
  isInitializer : Bool
deriving Repr

/-- The LoxClass runtime object: name, superclass, method table (the variant
of lox_class.ts with findMethod walking the superclass chain). -/
inductive LoxClassV
  | mk (name : String) (superClass : Option LoxClassV)
      (methods : List (String × LoxFunctionV))
deriving Repr

/-- The name of a runtime class. -/
def LoxClassV.name : LoxClassV → String
  | .mk n _ _ => n

/-- The method table of a runtime class. -/
def LoxClassV.methods : LoxClassV → List (String × LoxFunctionV)
  | .mk _ _ m => m

/-- LoxClass.findMethod: own table first, then the superclass chain. -/
def LoxClassV.findMethod : LoxClassV → String → Option LoxFunctionV
  | .mk _ sup methods, name =>
    match listLookup methods name with
    | some m => some m
    | none =>
      match sup with
      | some s => s.findMethod name
      | none => none

/-- Runtime values.  Host `===` on objects is reference identity; functions
and classes are modelled structurally (the claims only compare primitives),
while instances carry an explicit heap reference. -/
inductive LoxValue
  | nil
  | boolean (b : Bool)
  | num (q : ℚ)
  | str (s : String)
  | fn (f : LoxFunctionV)
  | cls (c : LoxClassV)
  | inst (ref : Nat)
  | clock
deriving Repr

/-- Whether a value is the JS null modelling Lox nil. -/
def LoxValue.isNil : LoxValue → Bool
  | .nil => true
  | _ => false

/-- An Environment object: bindings plus optional enclosing reference. -/
structure Env where
  values : List (String × LoxValue)
  enclosing : Option Nat
deriving Repr

/-- A LoxInstance object: its class and its mutable field map. -/
structure LoxInstanceV where
  cls : LoxClassV
  fields : List (String × LoxValue)
deriving Repr

/-- The interpreter state: the environment heap (reference = index, globals
at index 0), the instance heap, the current-environment register, the
resolver side table and the print output. -/
structure InterpState where
  envs : List Env
  insts : List LoxInstanceV
  environment : Nat
  globals : Nat
  locals : List (Nat × Nat)
  output : List String
deriving Repr

/-- Environment.define: unconditionally set the binding in this scope. -/
def envDefine (st : InterpState) (r : Nat) (name : String) (v : LoxValue) :
    InterpState :=
  match st.envs.get? r with
  | none => st
  | some e =>
    { st with envs := st.envs.set r { e with values := listSet e.values name v } }

/-- Environment.get: this scope, else delegate to the enclosing chain, else
an undefined-variable error.  The fuel bounds the chain walk (any reachable
heap is acyclic). -/
def envGet (fuel : Nat) (st : InterpState) (r : Nat) (name : Token) :
    Except String LoxValue :=
  match fuel with
  | 0 => .error "out of fuel"
  | fuel + 1 =>
    match st.envs.get? r with
    | none => .error ("Undefined variable " ++ name.lexeme ++ ".")
    | some e =>
      if listHas e.values name.lexeme then
        .ok ((listLookup e.values name.lexeme).getD .nil)
      else
        match e.enclosing with
        | some r' => envGet fuel st r' name
        | none => .error ("Undefined variable " ++ name.lexeme ++ ".")

/-- Environment.assign: this scope if the binding exists, else delegate to
the enclosing chain, else an undefined-variable error. -/
def envAssign (fuel : Nat) (st : InterpState) (r : Nat) (name : Token)
    (v : LoxValue) : Except String InterpState :=
  match fuel with
  | 0 => .error "out of fuel"
  | fuel + 1 =>
    match st.envs.get? r with
    | none => .error ("Undefined variable " ++ name.lexeme ++ ".")
    | some e =>
      if listHas e.values name.lexeme then
        .ok { st with
          envs := st.envs.set r { e with values := listSet e.values name.lexeme v } }
      else
        match e.enclosing with
        | some r' => envAssign fuel st r' name v
        | none => .error ("Undefined variable " ++ name.lexeme ++ ".")

/-- One step of the loop body of Environment.ancestor:
`environment = environment?.enclosing ?? null`. -/
def envStep (st : InterpState) : Option Nat → Option Nat
  | none => none
  | some r =>
    match st.envs.get? r with
    | none => none
    | some e => e.enclosing

/-- Environment.ancestor: walk `distance` enclosing links, falling to null
when the chain runs out. -/
def ancestor (st : InterpState) (r : Nat) : Nat → Option Nat
  | 0 => some r
  | d + 1 => envStep st (ancestor st r d)

/-- Environment.getAt:
`this.ancestor(distance)?.values.get(name) ?? null` — total, with nil as the
fallback both for a missing ancestor and for a missing binding. -/
def getAt (st : InterpState) (r : Nat) (distance : Nat) (name : String) :
    LoxValue :=
  match ancestor st r distance with
  | none => .nil
  | some r' =>
    match st.envs.get? r' with
    | none => .nil
    | some e => (listLookup e.values name).getD .nil

/-- Environment.assignAt:
`this.ancestor(distance)?.values.set(name.lexeme, value)` — a silent no-op
when the ancestor is missing. -/
def assignAt (st : InterpState) (r : Nat) (distance : Nat) (name : String)
    (v : LoxValue) : InterpState :=
  match ancestor st r distance with
  | none => st
  | some r' =>
    match st.envs.get? r' with
    | none => st
    | some e =>
      { st with envs := st.envs.set r' { e with values := listSet e.values name v } }

/-- Allocate a `new Environment(enclosing)` on the heap. -/
def allocEnv (st : InterpState) (enclosing : Option Nat) :
    Nat × InterpState :=
  (st.envs.length, { st with envs := st.envs ++ [⟨[], enclosing⟩] })

/-- LoxInstance.get: fields first, then the method table of the class chain;
a found method is returned as it is stored.  A missing property is a runtime
error. -/
def LoxInstanceV.get (i : LoxInstanceV) (name : Token) :
    Except String LoxValue :=
  if listHas i.fields name.lexeme then
    .ok ((listLookup i.fields name.lexeme).getD .nil)
  else
    match i.cls.findMethod name.lexeme with
    | some m => .ok (.fn m)
    | none => .error ("Undefined property " ++ name.lexeme ++ ".")

/-- LoxInstance.set: write the field. -/
def LoxInstanceV.setField (i : LoxInstanceV) (name : Token) (v : LoxValue) :
    LoxInstanceV :=
  { i with fields := listSet i.fields name.lexeme v }

/-- LoxFunction.bind: a fresh environment over the closure mapping `this` to
the instance, and a new LoxFunction over it with the same declaration and
is-initializer flag. -/
def LoxFunctionV.bind (f : LoxFunctionV) (instRef : Nat)
    (st : InterpState) : LoxFunctionV × InterpState :=
  let (envRef, st1) := allocEnv st (some f.closure)
  let st2 := envDefine st1 envRef "this" (.inst instRef)
  (⟨f.declaration, envRef, f.isInitializer⟩, st2)

/-- Interpreter.isTruthy: null and false are falsy, everything else truthy. -/
def isTruthy : LoxValue → Bool
  | .nil => false
  | .boolean b => b
  | _ => true

/-- Interpreter.isEqual: host `===` on the two values (value equality on
primitives; object comparisons are modelled structurally and are not
exercised by the claims). -/
def isEqual : LoxValue → LoxValue → Bool
  | .nil, .nil => true
  | .boolean a, .boolean b => a = b
  | .num a, .num b => a = b
  | .str a, .str b => a = b
  | .inst a, .inst b => a = b
  | .clock, .clock => true
  | _, _ => false

/-- LoxClass.arity: the arity of the initializer, or 0. -/
def LoxClassV.arity (c : LoxClassV) : Nat :=
  match c.findMethod "init" with
  | some i => i.declaration.params.length
  | none => 0

/-- isLoxCallable: the value has a call method (functions, classes and the
native clock object). -/
def isLoxCallable : LoxValue → Bool
  | .fn _ => true
  | .cls _ => true
  | .clock => true
  | _ => false

/-- The arity of a callable value. -/
def arityOf : LoxValue → Nat
  | .fn f => f.declaration.params.length
  | .cls c => c.arity
  | _ => 0

/-- Truncation toward zero of a rational (for the JS % operator). -/
def truncQ (q : ℚ) : ℤ :=
  if 0 ≤ q then ⌊q⌋ else ⌈q⌉

/-- The JS remainder operator on the rational number model. -/
def jsRem (a b : ℚ) : ℚ :=
  a - b * (truncQ (a / b) : ℚ)

/-- Template-string rendering of a value (the string branch of +), and the
toString dispatch used by it.  JS float formatting is abstracted: integral
rationals render as integers, other rationals by the default rational
notation. -/
def jsToString (st : InterpState) : LoxValue → String
  | .nil => "null"
  | .boolean b => if b then "true" else "false"
  | .num q => if q.den = 1 then toString q.num else toString q
  | .str s => s
  | .fn _ => "[object Object]"
  | .cls c => c.name
  | .inst r =>
    match st.insts.get? r with
    | some i => i.cls.name ++ " instance"
    | none => "[object Object]"
  | .clock => "[object Object]"

/-- Interpreter.stringify: nil for null, otherwise the toString of the
value. -/
def stringify (st : InterpState) (v : LoxValue) : String :=
  match v with
  | .nil => "nil"
  | v => jsToString st v

/-- The operator dispatch of Interpreter.visitBinaryExpression after both
operands have been evaluated: the null guard first, then the switch on the
operator kind. -/
def binaryOpResult (st : InterpState) (op : TokenType) (l r : LoxValue) :
    Except String LoxValue :=
  if l.isNil ∨ r.isNil then .error "One of the operands is null."
  else
    match op with
    | .Greater =>
      match l, r with
      | .num a, .num b => .ok (.boolean (decide (b < a)))
      | _, _ => .error "Operands must be numbers."
    | .GreaterEqual =>
      match l, r with
      | .num a, .num b => .ok (.boolean (decide (b ≤ a)))
      | _, _ => .error "Operands must be numbers."
    | .Less =>
      match l, r with
      | .num a, .num b => .ok (.boolean (decide (a < b)))
      | _, _ => .error "Operands must be numbers."
    | .LessEqual =>
      match l, r with
      | .num a, .num b => .ok (.boolean (decide (a ≤ b)))
      | _, _ => .error "Operands must be numbers."
    | .BangEqual => .ok (.boolean (!isEqual l r))
    | .EqualEqual => .ok (.boolean (isEqual l r))
    | .Plus =>
      match l, r with
      | .num a, .num b => .ok (.num (a + b))
      | _, _ =>
        match l, r with
        | .str _, _ => .ok (.str (jsToString st l ++ jsToString st r))
        | _, .str _ => .ok (.str (jsToString st l ++ jsToString st r))
        | _, _ => .error "Operands must be 2 numbers or at least 1 strings."
    | .Minus =>
      match l, r with
      | .num a, .num b => .ok (.num (a - b))
      | _, _ => .error "Operands must be numbers."
    | .Slash =>
      match l, r with
      | .num a, .num b => .ok (.num (a / b))
      | _, _ => .error "Operands must be numbers."
    | .Star =>
      match l, r with
      | .num a, .num b => .ok (.num (a * b))
      | _, _ => .error "Operands must be numbers."
    | .Percent =>
      match l, r with
      | .num a, .num b => .ok (.num (jsRem a b))
      | _, _ => .error "Operands must be numbers."
    | _ => .error "Unknown token type used as binary operator."

/-- The value of a literal expression. -/
def litValToLox : LitVal → LoxValue
  | .nil => .nil
  | .boolean b => .boolean b
  | .num q => .num q
  | .str s => .str s

/-- Interpreter.lookUpVariable: a recorded depth sends the lookup through
getAt on the current environment; otherwise the lookup is
`this.environment.get(name)` — the get walk on the current environment
chain. -/
def lookUpVariable (st : InterpState) (name : Token) (id : Nat) :
    Except String LoxValue :=
  match listLookup st.locals id with
  | some d => .ok (getAt st st.environment d name.lexeme)
  | none => envGet (st.envs.length + 1) st st.environment name

/-- The outcome of executing a statement: normal completion, a LoxReturn
unwind, or a thrown runtime error. -/
inductive StmtOutcome
  | normal
  | ret (v : LoxValue)
  | err (e : String)
deriving Repr

/-- Bind parameters to arguments in the fresh call environment (the
parameter loop of LoxFunction.call; the arity check upstream makes the two
lists equal in length). -/
def defineParams (ps : List Token) (args : List LoxValue) (r : Nat)
    (st : InterpState) : InterpState :=
  match ps, args with
  | p :: ps', a :: args' => defineParams ps' args' r (envDefine st r p.lexeme a)
  | _, _ => st

mutual

/-- The expression visitors of the Interpreter class.  The class implements
no visitor methods for Get, Set, This and Super expressions; host dispatch
on those nodes fails, modelled as a runtime error. -/
def evaluate (fuel : Nat) (e : Expr) (st : InterpState) :
    Except String LoxValue × InterpState :=
  match fuel with
  | 0 => (.error "out of fuel", st)
  | fuel + 1 =>
    match e with
    | .lit v => (.ok (litValToLox v), st)
    | .grouping e => evaluate fuel e st
    | .unary op right =>
      match evaluate fuel right st with
      | (.error e, st') => (.error e, st')
      | (.ok v, st') =>
        match op.type with
        | .Bang => (.ok (.boolean (!isTruthy v)), st')
        | .Minus =>
          match v with
          | .num q => (.ok (.num (-q)), st')
          | _ => (.error "Operand must be a number.", st')
        | _ => (.error "Unknown token type used as unary operator.", st')
    | .binary left op right =>
      match evaluate fuel left st with
      | (.error e, st') => (.error e, st')
      | (.ok lv, st') =>
        match evaluate fuel right st' with
        | (.error e, st'') => (.error e, st'')
        | (.ok rv, st'') => (binaryOpResult st'' op.type lv rv, st'')
    | .logical left op right =>
      match evaluate fuel left st with
      | (.error e, st') => (.error e, st')
      | (.ok lv, st') =>
        if op.type = .Or then
          if isTruthy lv then (.ok lv, st') else evaluate fuel right st'
        else
          if !isTruthy lv then (.ok lv, st') else evaluate fuel right st'
    | .varE id name => (lookUpVariable st name id, st)
    | .assign id name value =>
      match evaluate fuel value st with
      | (.error e, st') => (.error e, st')
      | (.ok v, st') =>
        match listLookup st'.locals id with
        | some d => (.ok v, assignAt st' st'.environment d name.lexeme v)
        | none =>
          match envAssign (st'.envs.length + 1) st' st'.globals name v with
          | .ok st'' => (.ok v, st'')
          | .error e => (.error e, st')
    | .call callee _ args =>
      match evaluate fuel callee st with
      | (.error e, st') => (.error e, st')
      | (.ok c, st') =>
        match evalArgs fuel args st' with
        | (.error e, st'') => (.error e, st'')
        | (.ok vs, st'') =>
          if !isLoxCallable c then
            (.error "Call only call functions and classes.", st'')
          else if vs.length ≠ arityOf c then
            (.error ("Expected " ++ toString (arityOf c) ++
              " arguments but got " ++ toString vs.length ++ "."), st'')
          else
            match c with
            | .fn f => callFunction fuel f vs st''
            | .cls cl => callClass fuel cl vs st''
            | .clock => (.ok (.num 0), st'')
            | _ => (.error "Call only call functions and classes.", st'')
    | .getE _ _ =>
      (.error "Runtime dispatch failed: no Get visitor on the interpreter.",
        st)
    | .setE _ _ _ =>
      (.error "Runtime dispatch failed: no Set visitor on the interpreter.",
        st)
    | .thisE _ _ =>
      (.error "Runtime dispatch failed: no This visitor on the interpreter.",
        st)
    | .superE _ _ _ =>
      (.error "Runtime dispatch failed: no Super visitor on the interpreter.",
        st)

/-- Left-to-right evaluation of call arguments. -/
def evalArgs (fuel : Nat) (args : List Expr) (st : InterpState) :
    Except String (List LoxValue) × InterpState :=
  match fuel with
  | 0 => (.error "out of fuel", st)
  | fuel + 1 =>
    match args with
    | [] => (.ok [], st)
    | a :: rest =>
      match evaluate fuel a st with
      | (.error e, st') => (.error e, st')
      | (.ok v, st') =>
        match evalArgs fuel rest st' with
        | (.error e, st'') => (.error e, st'')
        | (.ok vs, st'') => (.ok (v :: vs), st'')

/-- LoxFunction.call: bind parameters in a fresh environment over the
closure and run the body through executeBlock inside a try that matches only
LoxReturn; a runtime error unwinding out of the body is caught by the
catch-all and discarded, after which the normal-completion result (nil, or
`this` for an initializer) is returned. -/
def callFunction (fuel : Nat) (f : LoxFunctionV) (args : List LoxValue)
    (st : InterpState) : Except String LoxValue × InterpState :=
  match fuel with
  | 0 => (.error "out of fuel", st)
  | fuel + 1 =>
    let (envRef, st1) := allocEnv st (some f.closure)
    let st2 := defineParams f.declaration.params args envRef st1
    match executeBlock fuel f.declaration.body envRef st2 with
    | (.ret v, st3) =>
      if f.isInitializer then (.ok (getAt st3 f.closure 0 "this"), st3)
      else (.ok v, st3)
    | (_, st3) =>
      if f.isInitializer then (.ok (getAt st3 f.closure 0 "this"), st3)
      else (.ok .nil, st3)

/-- LoxClass.call: allocate an instance; when an init method exists, bind it
to the instance and call it; return the instance. -/
def callClass (fuel : Nat) (c : LoxClassV) (args : List LoxValue)
    (st : InterpState) : Except String LoxValue × InterpState :=
  match fuel with
  | 0 => (.error "out of fuel", st)
  | fuel + 1 =>
    let instRef := st.insts.length
    let st1 := { st with insts := st.insts ++ [⟨c, []⟩] }
    match c.findMethod "init" with
    | some i =>
      let (bound, st2) := i.bind instRef st1
      match callFunction fuel bound args st2 with
      | (.error e, st3) => (.error e, st3)
      | (.ok _, st3) => (.ok (.inst instRef), st3)
    | none => (.ok (.inst instRef), st1)

/-- The statement visitors of the Interpreter class. -/
def execStmt (fuel : Nat) (s : Stmt) (st : InterpState) :
    StmtOutcome × InterpState :=
  match fuel with
  | 0 => (.err "out of fuel", st)
  | fuel + 1 =>
    match s with
    | .expression e =>
      match evaluate fuel e st with
      | (.error msg, st') => (.err msg, st')
      | (.ok _, st') => (.normal, st')
    | .print e =>
      match evaluate fuel e st with
      | (.error msg, st') => (.err msg, st')
      | (.ok v, st') =>
        (.normal, { st' with output := st'.output ++ [stringify st' v] })
    | .varDecl name init =>
      match init with
      | none => (.normal, envDefine st st.environment name.lexeme .nil)
      | some e =>
        match evaluate fuel e st with
        | (.error msg, st') => (.err msg, st')
        | (.ok v, st') =>
          (.normal, envDefine st' st'.environment name.lexeme v)
    | .block stmts =>
      let (r, st1) := allocEnv st (some st.environment)
      executeBlock fuel stmts r st1
    | .ifS c t e =>
      match evaluate fuel c st with
      | (.error msg, st') => (.err msg, st')
      | (.ok v, st') =>
        if isTruthy v then execStmt fuel t st'
        else
          match e with
          | some s => execStmt fuel s st'
          | none => (.normal, st')
    | .whileS c body => whileExec fuel c body st
    | .funDecl f =>
      let fv : LoxFunctionV := ⟨f, st.environment, false⟩
      (.normal, envDefine st st.environment f.name.lexeme (.fn fv))
    | .returnS _ value =>
      match value with
      | none => (.ret .nil, st)
      | some e =>
        match evaluate fuel e st with
        | (.error msg, st') => (.err msg, st')
        | (.ok v, st') => (.ret v, st')
    | .classS name _ _ =>
      let st1 := envDefine st st.environment name.lexeme .nil
      let c : LoxClassV := .mk name.lexeme none []
      match envAssign (st1.envs.length + 1) st1 st1.environment name (.cls c) with
      | .ok st2 => (.normal, st2)
      | .error e => (.err e, st1)

/-- The loop of Interpreter.visitWhileStatement. -/
def whileExec (fuel : Nat) (c : Expr) (body : Stmt) (st : InterpState) :
    StmtOutcome × InterpState :=
  match fuel with
  | 0 => (.err "out of fuel", st)
  | fuel + 1 =>
    match evaluate fuel c st with
    | (.error msg, st') => (.err msg, st')
    | (.ok v, st') =>
      if isTruthy v then
        match execStmt fuel body st' with
        | (.normal, st'') => whileExec fuel c body st''
        | other => other
      else (.normal, st')

/-- Sequential statement execution, stopping at the first non-normal
outcome. -/
def execStmts (fuel : Nat) (stmts : List Stmt) (st : InterpState) :
    StmtOutcome × InterpState :=
  match fuel with
  | 0 => (.err "out of fuel", st)
  | fuel + 1 =>
    match stmts with
    | [] => (.normal, st)
    | s :: rest =>
      match execStmt fuel s st with
      | (.normal, st') => execStmts fuel rest st'
      | other => other

/-- Interpreter.executeBlock: save the current environment, install the new
one, run the statements, and restore the saved environment on every exit
path (the finally of the source). -/
def executeBlock (fuel : Nat) (stmts : List Stmt) (envRef : Nat)
    (st : InterpState) : StmtOutcome × InterpState :=
  match fuel with
  | 0 => (.err "out of fuel", st)
  | fuel + 1 =>
    let previous := st.environment
    let (o, st') := execStmts fuel stmts { st with environment := envRef }
    (o, { st' with environment := previous })

end

/-- Interpreter.interpret: execute the statements in order; any exception
escaping a statement (runtime error or stray LoxReturn) is caught and
rethrown as the fatal runtime-error signal. -/
def interpret (fuel : Nat) (stmts : List Stmt) (st : InterpState) :
    Except String Unit × InterpState :=
  match execStmts fuel stmts st with
  | (.normal, st') => (.ok (), st')
  | (.ret _, st') => (.error "Runtime error.", st')
  | (.err _, st') => (.error "Runtime error.", st')

/-- The interpreter state at construction: a globals environment holding the
native clock callable, the current environment set to globals, and a given
resolver side table. -/
def initInterpState (locals : List (Nat × Nat)) : InterpState :=
  { envs := [⟨[("clock", .clock)], none⟩]
    insts := []
    environment := 0
    globals := 0
    locals := locals
    output := [] }

/-- The kind of a runtime value (the host typeof/constructor distinction). -/
inductive ValueKind
  | nilK
  | boolK
  | numK
  | strK
  | fnK
  | clsK
  | instK
  | clockK
deriving DecidableEq, Repr

/-- The kind of a value. -/
def kindOf : LoxValue → ValueKind
  | .nil => .nilK
  | .boolean _ => .boolK
  | .num _ => .numK
  | .str _ => .strK
  | .fn _ => .fnK
  | .cls _ => .clsK
  | .inst _ => .instK
  | .clock => .clockK

/-! ## Concrete inputs used by counterexamples and witnesses -/

/-- An identifier token. -/
def identTok (s : String) : Token :=
  ⟨.Identifier, s, none, 1⟩

/-- A punctuation or keyword token. -/
def mkTok (t : TokenType) (s : String) : Token :=
  ⟨t, s, none, 1⟩

/-- The body of the witness function of the error-swallowing scenario:
the single statement `1 + nil;`, whose evaluation raises a runtime error. -/
def errBody : List Stmt :=
  [.expression (.binary (.lit (.num 1)) (mkTok .Plus "+") (.lit .nil))]

/-- The scenario program `function f() { 1 + nil; } f();`. -/
def swallowProg : List Stmt :=
  [.funDecl (.mk (identTok "f") [] errBody),
   .expression (.call (.varE 0 (identTok "f")) (mkTok .RightParen ")") [])]

/-- The method `m() {}` used by the class scenarios. -/
def methodM : FunctionStmt :=
  .mk (identTok "m") [] []

/-- A runtime method value whose closure is the globals environment. -/
def methodMV : LoxFunctionV :=
  ⟨methodM, 0, false⟩

/-- A runtime class declaring the single method m. -/
def classAV : LoxClassV :=
  .mk "A" none [("m", methodMV)]

/-- A fresh instance of that class (no fields). -/
def instAV : LoxInstanceV :=
  ⟨classAV, []⟩

/-- The class statement `class C { m() {} }`. -/
def classStmtC : Stmt :=
  .classS (identTok "C") none [methodM]

/-- A state whose globals bind x to 2 while the current environment (a child
of globals) binds x to 1; the resolver side table is empty. -/
def shadowState : InterpState :=
  { envs := [⟨[("x", .num 2)], none⟩, ⟨[("x", .num 1)], some 0⟩]
    insts := []
    environment := 1
    globals := 0
    locals := []
    output := [] }

/-- The shadow state with a resolved depth 0 for NodeId 7. -/
def shadowStateResolved : InterpState :=
  { shadowState with locals := [(7, 0)] }

/-- A one-environment heap used by the getAt witnesses. -/
def miniState : InterpState :=
  { envs := [⟨[("y", .num 3)], none⟩]
    insts := []
    environment := 0
    globals := 0
    locals := []
    output := [] }

/-- The class statement `class P { init(x) { return x; } }` whose init
method returns a value. -/
def classStmtP : Stmt :=
  .classS (identTok "P") none
    [.mk (identTok "init") [identTok "x"]
      [.returnS (mkTok .Return "return") (some (.varE 0 (identTok "x")))]]

/-- Scanner state entered right after consuming the opening quote of
`"a"` (start at the quote, current past it). -/
def scanStateA : ScanState :=
  ⟨"\"a\"".toList, [], 0, 1, 1⟩

/-- Scanner state for an unterminated string `"a` at end of input. -/
def scanStateUnterminated : ScanState :=
  ⟨"\"a".toList, [], 0, 1, 1⟩

/-! ## Association list and heap lemmas -/

/-- Map.set followed by Map.get at the same key yields the new value. -/
theorem listLookup_listSet {κ α : Type} [DecidableEq κ]
    (m : List (κ × α)) (k : κ) (v : α) :
    listLookup (listSet m k v) k = some v := by
  induction m with
  | nil => simp [listSet, listLookup]
  | cons hd tl ih =>
    obtain ⟨k', a⟩ := hd
    by_cases h : k' = k
    · simp [listSet, listLookup, h]
    · simp [listSet, listLookup, h, ih]

/-- Map.set preserves Map.has at the key. -/
theorem listHas_listSet {κ α : Type} [DecidableEq κ]
    (m : List (κ × α)) (k : κ) (v : α) :
    listHas (listSet m k v) k = true := by
  simp [listHas, listLookup_listSet]

/-- Appending one element and reading at the old length. -/
theorem getLast_append {α : Type} (l : List α) (a : α) :
    (l ++ [a]).get? l.length = some a := by
  induction l with
  | nil => rfl
  | cons hd tl ih => simp [ih]

/-- Setting the element just appended. -/
theorem setLast_append {α : Type} (l : List α) (a b : α) :
    (l ++ [a]).set l.length b = l ++ [b] := by
  induction l with
  | nil => rfl
  | cons hd tl ih => simp [ih]

/-! ## Claim theorems -/

/-- C8: for every statement list, target environment and starting state,
executeBlock leaves the current-environment register of the interpreter
equal to its pre-call value, whatever the outcome of the body (normal
completion, a return unwinding, or a runtime error unwinding) — the saved
environment is reinstated on every exit path. -/
theorem executeBlock_restores_environment (fuel : Nat) (stmts : List Stmt)
    (envRef : Nat) (st : InterpState) :
    ((executeBlock fuel stmts envRef st).2).environment = st.environment := by
  cases fuel with
  | zero => rfl
  | succ fuel =>
    simp only [executeBlock]

/-- C10: Environment.getAt and Environment.assignAt are total: when the
enclosing chain from the current environment is shorter than the requested
distance (ancestor falls to null), getAt returns nil and assignAt leaves the
heap untouched; when the ancestor exists but holds no binding for the name,
getAt also returns nil.  No error is signalled on either path. -/
theorem getAt_total_nil_fallback :
    (∀ (st : InterpState) (r d : Nat) (name : String) (v : LoxValue),
      ancestor st r d = none →
      getAt st r d name = .nil ∧ assignAt st r d name v = st) ∧
    (∀ (st : InterpState) (r d : Nat) (name : String) (r' : Nat) (e : Env),
      ancestor st r d = some r' → st.envs.get? r' = some e →
      listLookup e.values name = none →
      getAt st r d name = .nil) := by
  constructor
  · intro st r d name v h
    constructor
    · simp [getAt, h]
    · simp [assignAt, h]
  · intro st r d name r' e h he hl
    simp only [List.get?_eq_getElem?] at he
    simp [getAt, h, he, hl]

/-- Witness for C10 at a one-environment heap: distance 2 overshoots the
chain, and a missing binding at distance 0 also falls back to nil. -/
theorem getAt_total_nil_fallback_witness :
    getAt miniState 0 2 "y" = .nil ∧
    assignAt miniState 0 2 "y" (.num 5) = miniState ∧
    getAt miniState 0 0 "z" = .nil :=
  ⟨(getAt_total_nil_fallback.1 miniState 0 2 "y" (.num 5) rfl).1,
   (getAt_total_nil_fallback.1 miniState 0 2 "y" (.num 5) rfl).2,
   getAt_total_nil_fallback.2 miniState 0 0 "z" 0 ⟨[("y", .num 3)], none⟩
     rfl rfl rfl⟩

/-- C1 counterexample: evaluating `nil == nil` does not succeed with true;
the null guard of visitBinaryExpression fires on the nil operands and raises
a runtime error before the equality switch is reached. -/
theorem nil_eq_nil_raises :
    evaluate 2 (.binary (.lit .nil) (mkTok .EqualEqual "==") (.lit .nil))
      (initInterpState []) =
    (.error "One of the operands is null.", initInterpState []) := by
  rfl

/-- C1 amended: when both operands are non-nil, `==` evaluates to host
equality of the underlying values and `!=` to its negation; numeric equality
agrees with host number equality; values of different kinds compare unequal;
but when either operand is nil (in particular `nil == nil`) the operator
raises the runtime error of the null guard instead of returning a boolean. -/
theorem equality_behaviour :
    (∀ (st : InterpState) (l r : LoxValue),
      l.isNil = false → r.isNil = false →
      binaryOpResult st .EqualEqual l r = .ok (.boolean (isEqual l r)) ∧
      binaryOpResult st .BangEqual l r = .ok (.boolean (!isEqual l r))) ∧
    (∀ a b : ℚ, isEqual (.num a) (.num b) = decide (a = b)) ∧
    (∀ l r : LoxValue, kindOf l ≠ kindOf r → isEqual l r = false) ∧
    (∀ (st : InterpState) (l r : LoxValue),
      l.isNil = true ∨ r.isNil = true →
      binaryOpResult st .EqualEqual l r =
        .error "One of the operands is null.") := by
  refine ⟨?_, ?_, ?_, ?_⟩
  · intro st l r hl hr
    constructor <;> simp [binaryOpResult, hl, hr]
  · intro a b
    rfl
  · intro l r h
    cases l <;> cases r <;> first
      | rfl
      | exact absurd rfl h
  · intro st l r h
    rcases h with h | h <;> simp [binaryOpResult, h]

/-- Witness for C1 at concrete values: `1 == 1` is true, `1 == 2` is false,
`1 == "1"` is false across kinds, and `nil == 1` raises. -/
theorem equality_behaviour_witness :
    binaryOpResult (initInterpState []) .EqualEqual (.num 1) (.num 1) =
      .ok (.boolean (isEqual (.num 1) (.num 1))) ∧
    isEqual (.num 1) (.num 1) = true ∧
    isEqual (.num 1) (.num 2) = false ∧
    isEqual (.num 1) (.str "1") = false ∧
    binaryOpResult (initInterpState []) .EqualEqual .nil (.num 1) =
      .error "One of the operands is null." := by
  refine ⟨(equality_behaviour.1 (initInterpState []) (.num 1) (.num 1)
    rfl rfl).1, by decide, by decide, ?_, ?_⟩
  · exact equality_behaviour.2.2.1 (.num 1) (.str "1") (by decide)
  · exact equality_behaviour.2.2.2 (initInterpState []) .nil (.num 1)
      (Or.inl rfl)

/-- C2: a runtime error raised while executing a function body does not
propagate out of the call.  In `function f() { 1 + nil; } f();` the body
expression raises a runtime error when evaluated directly, yet the call
`f()` swallows it (the catch of LoxFunction.call matches every exception and
only re-delivers LoxReturn values) and the whole interpret run completes
without a runtime error, contradicting the fatal-error contract. -/
theorem runtime_error_swallowed_by_call :
    (evaluate 10 (.binary (.lit (.num 1)) (mkTok .Plus "+") (.lit .nil))
      (initInterpState [])).1 = .error "One of the operands is null." ∧
    (interpret 50 swallowProg (initInterpState [])).1 = .ok () := by
  constructor <;> rfl

/-- C5: the resolver accepts a value-carrying return inside an init method.
Resolving `class P { init(x) { return x; } }` from the initial resolver
state succeeds (no resolve error) because visitClassStatement resolves every
method with function kind METHOD — the INITIALIZER kind and the
value-return-from-initializer check of visitReturnStatement are never
activated. -/
theorem init_value_return_not_rejected :
    (Resolve.resolveStmt 20 classStmtP initRState).1 = .ok () ∧
    (Resolve.resolveStmt 20 classStmtP initRState).2.locals = [(0, 0)] := by
  constructor <;> rfl

/-- C6 counterexample: a Variable expression with no resolver depth is read
through the current environment chain, not through globals.  In a state
where the current environment binds x to 1 while globals binds x to 2, the
lookup yields 1 (the chain value); reading globals directly yields 2. -/
theorem lookup_falls_back_to_chain_not_globals :
    evaluate 2 (.varE 7 (identTok "x")) shadowState =
      (.ok (.num 1), shadowState) ∧
    envGet 10 shadowState shadowState.globals (identTok "x") =
      .ok (.num 2) ∧
    (LoxValue.num 1) ≠ (LoxValue.num 2) := by
  refine ⟨rfl, rfl, ?_⟩
  intro h
  injection h with h'
  exact absurd h' (by norm_num)

/-- C6 amended: a Variable expression with a recorded resolver depth is read
with getAt(depth, name) on the current environment; one with no recorded
depth is read with get(name) on the current environment — the get walk of
the environment chain (which reaches globals only through the chain), not a
direct globals read. -/
theorem variable_lookup_paths (fuel : Nat) (st : InterpState) (id : Nat)
    (name : Token) :
    (∀ d, listLookup st.locals id = some d →
      evaluate (fuel + 1) (.varE id name) st =
        (.ok (getAt st st.environment d name.lexeme), st)) ∧
    (listLookup st.locals id = none →
      evaluate (fuel + 1) (.varE id name) st =
        (envGet (st.envs.length + 1) st st.environment name, st)) := by
  constructor
  · intro d h
    simp [evaluate, lookUpVariable, h]
  · intro h
    simp [evaluate, lookUpVariable, h]

/-- Witness for C6: in the shadow state the unresolved lookup takes the
chain walk and the resolved lookup takes getAt. -/
theorem variable_lookup_paths_witness :
    evaluate 2 (.varE 7 (identTok "x")) shadowState =
      (envGet (shadowState.envs.length + 1) shadowState
        shadowState.environment (identTok "x"), shadowState) ∧
    evaluate 2 (.varE 7 (identTok "x")) shadowStateResolved =
      (.ok (getAt shadowStateResolved shadowStateResolved.environment 0 "x"),
        shadowStateResolved) :=
  ⟨(variable_lookup_paths 1 shadowState 7 (identTok "x")).2 rfl,
   (variable_lookup_paths 1 shadowStateResolved 7 (identTok "x")).1 0 rfl⟩

/-- The string loop of the scanner only moves the cursor: source, tokens,
start and in particular the line counter are untouched by the characters of
the literal, newlines included. -/
theorem stringLoop_shape (fuel : Nat) :
    ∀ s : ScanState, ∃ c, stringLoop fuel s = { s with current := c } := by
  induction fuel with
  | zero => intro s; exact ⟨s.current, rfl⟩
  | succ fuel ih =>
    intro s
    by_cases h : s.peek ≠ '"' ∧ ¬ s.isAtEnd
    · obtain ⟨c, hc⟩ := ih s.bump
      simp only [ScanState.bump] at hc
      refine ⟨c, ?_⟩
      rw [stringLoop, if_pos h]
      exact hc
    · exact ⟨s.current, by rw [stringLoop, if_neg h]⟩

/-- C7 amended: scanning a string literal performs no escape processing (the
emitted literal is the verbatim source text between the quotes) but does not
advance the line counter for newlines inside the literal — the scanner state
keeps the line of the opening quote, so the token after a multi-line string
carries the unadvanced line number; an unterminated string raises a lex
error carrying that same starting line. -/
theorem string_scan_behaviour (s : ScanState) :
    (∀ e, scanString s = .error e → e.line = s.line) ∧
    (∀ s', scanString s = .ok s' →
      s'.line = s.line ∧
      s'.tokens = s.tokens ++
        [⟨.StringTok, strSlice s.source s.start s'.current,
          some (.str (strSlice s.source (s.start + 1) (s'.current - 1))),
          s.line⟩]) := by
  obtain ⟨c, hc⟩ := stringLoop_shape (s.source.length + 1 - s.current) s
  constructor
  · intro e he
    unfold scanString at he
    rw [hc] at he
    simp only [ScanState.bump, ScanState.addToken] at he
    split at he
    · injection he with h'
      rw [← h']
    · exact absurd he (by simp)
  · intro s' he
    unfold scanString at he
    rw [hc] at he
    simp only [ScanState.bump, ScanState.addToken] at he
    split at he
    · exact absurd he (by simp)
    · injection he with h'
      subst h'
      exact ⟨rfl, rfl⟩

/-- C7 counterexample: scanning a source whose string literal contains a
newline leaves the line counter at 1; the token after the multi-line string
(here EOF) carries line 1, not the line 2 an advancing counter would give. -/
theorem multiline_string_line_not_advanced :
    scanSource "\"a\nb\"" =
      .ok [⟨.StringTok, "\"a\nb\"", some (.str "a\nb"), 1⟩,
           ⟨.EOF, "", none, 1⟩] ∧
    (1 : Nat) ≠ 2 := by
  exact ⟨rfl, by decide⟩

/-- The state produced by scanning the terminated literal of scanStateA. -/
def scanResultA : ScanState :=
  ⟨"\"a\"".toList, [⟨.StringTok, "\"a\"", some (.str "a"), 1⟩], 0, 3, 1⟩

/-- Witness for C7 applying the theorem to a terminated and an unterminated
concrete literal. -/
theorem string_scan_behaviour_witness :
    (scanResultA.line = scanStateA.line ∧
      scanResultA.tokens = scanStateA.tokens ++
        [⟨.StringTok, strSlice scanStateA.source scanStateA.start
            scanResultA.current,
          some (.str (strSlice scanStateA.source (scanStateA.start + 1)
            (scanResultA.current - 1))),
          scanStateA.line⟩]) ∧
    (⟨1, "Unterminated string."⟩ : ScanError).line =
      scanStateUnterminated.line :=
  ⟨(string_scan_behaviour scanStateA).2 scanResultA rfl,
   (string_scan_behaviour scanStateUnterminated).1
     ⟨1, "Unterminated string."⟩ rfl⟩

/-- C3 counterexample: retrieving the method m from an instance returns the
stored method object itself — closure unchanged (the globals reference 0),
no fresh environment binding `this` — whereas bind would produce a function
over a freshly allocated environment (reference 1 here). -/
theorem method_get_returns_unbound :
    instAV.get (identTok "m") = .ok (.fn methodMV) ∧
    methodMV.closure = 0 ∧
    ((methodMV.bind 0 (initInterpState [])).1).closure = 1 ∧
    (0 : Nat) ≠ 1 := by
  exact ⟨rfl, rfl, rfl, by decide⟩

/-- C3 amended: Get on an instance checks fields first and then walks the
class chain with findMethod, but a found method is returned exactly as
stored (unbound); LoxFunction.bind — invoked only by LoxClass.call on the
initializer — is the operation that builds a fresh function over a new
environment mapping `this` to the instance while preserving the declaration
and the is-initializer flag. -/
theorem method_get_and_bind_behaviour :
    (∀ (i : LoxInstanceV) (name : Token) (m : LoxFunctionV),
      listHas i.fields name.lexeme = false →
      i.cls.findMethod name.lexeme = some m →
      i.get name = .ok (.fn m)) ∧
    (∀ (f : LoxFunctionV) (instRef : Nat) (st : InterpState),
      ((f.bind instRef st).1).isInitializer = f.isInitializer ∧
      ((f.bind instRef st).1).declaration = f.declaration ∧
      ((f.bind instRef st).1).closure = st.envs.length ∧
      ((f.bind instRef st).2).envs =
        st.envs ++ [⟨[("this", .inst instRef)], some f.closure⟩]) := by
  constructor
  · intro i name m hf hm
    simp [LoxInstanceV.get, hf, hm]
  · intro f instRef st
    refine ⟨rfl, rfl, rfl, ?_⟩
    have h1 := getLast_append st.envs (⟨[], some f.closure⟩ : Env)
    simp only [List.get?_eq_getElem?] at h1
    simp [LoxFunctionV.bind, allocEnv, envDefine, h1, listSet,
      setLast_append]

/-- Witness for C3 at the concrete instance: the field map is empty, the
method is found on the class, and bind yields the fresh bound function. -/
theorem method_get_and_bind_behaviour_witness :
    instAV.get (identTok "m") = .ok (.fn methodMV) ∧
    ((methodMV.bind 0 (initInterpState [])).1).isInitializer =
      methodMV.isInitializer ∧
    ((methodMV.bind 0 (initInterpState [])).2).envs =
      (initInterpState []).envs ++
        [⟨[("this", .inst 0)], some methodMV.closure⟩] :=
  ⟨method_get_and_bind_behaviour.1 instAV (identTok "m") methodMV rfl rfl,
   (method_get_and_bind_behaviour.2 methodMV 0 (initInterpState [])).1,
   (method_get_and_bind_behaviour.2 methodMV 0 (initInterpState [])).2.2.2⟩

/-- C4 counterexample: executing `class C { m() {} }` binds C to a class
value whose method table is empty — the declared method m is not installed,
findMethod fails on it, and a Get of m through an instance of the class
raises the missing-property runtime error instead of succeeding. -/
theorem class_built_without_methods :
    (execStmt 10 classStmtC (initInterpState [])).1 = .normal ∧
    envGet 5 (execStmt 10 classStmtC (initInterpState [])).2 0
      (identTok "C") = .ok (.cls (.mk "C" none [])) ∧
    LoxClassV.findMethod (.mk "C" none []) "m" = none ∧
    LoxInstanceV.get ⟨.mk "C" none [], []⟩ (identTok "m") =
      .error "Undefined property m." := by
  exact ⟨rfl, rfl, rfl, rfl⟩

/-- Reading back the element just written by List.set. -/
theorem get_set_self {α : Type} (l : List α) (i : Nat) (a : α)
    (h : i < l.length) : (l.set i a).get? i = some a := by
  induction l generalizing i with
  | nil => simp at h
  | cons hd tl ih =>
    cases i with
    | zero => rfl
    | succ i =>
      simp only [List.set]
      simpa using ih i (by simpa using h)

/-- C4 amended: executing a class statement defines the class name as nil,
builds a runtime class carrying only the class name — no superclass and an
empty method table, whatever methods the declaration lists — and assigns
that class value to the name; consequently a method access through an
instance of such a class raises the missing-property runtime error rather
than succeeding. -/
theorem class_statement_behaviour (fuel : Nat) (name : Token)
    (sc : Option VarRef) (methods : List FunctionStmt) (st : InterpState)
    (e : Env) (he : st.envs.get? st.environment = some e) :
    ((execStmt (fuel + 1) (.classS name sc methods) st).1 = .normal ∧
      ∃ e', ((execStmt (fuel + 1) (.classS name sc methods) st).2).envs.get?
          st.environment = some e' ∧
        listLookup e'.values name.lexeme =
          some (.cls (.mk name.lexeme none []))) ∧
    (∀ (n : String) (mname : Token),
      LoxInstanceV.get ⟨.mk n none [], []⟩ mname =
        .error ("Undefined property " ++ mname.lexeme ++ ".")) := by
  have hlt : st.environment < st.envs.length := by
    by_contra hge
    rw [List.get?_eq_none.mpr (Nat.le_of_not_lt hge)] at he
    exact Option.noConfusion he
  constructor
  · have hdef : envDefine st st.environment name.lexeme .nil =
        { st with envs := st.envs.set st.environment { e with values := listSet e.values name.lexeme .nil } } := by
      simp only [envDefine]
      rw [he]
    have hget1 : (st.envs.set st.environment
        { e with values := listSet e.values name.lexeme .nil }).get?
          st.environment =
        some { e with values := listSet e.values name.lexeme .nil } :=
      get_set_self _ _ _ hlt
    have hhas : listHas (listSet e.values name.lexeme LoxValue.nil)
        name.lexeme = true := listHas_listSet _ _ _
    simp only [execStmt, hdef]
    simp only [envAssign, List.length_set, hget1, hhas, if_pos]
    have hget2 := get_set_self
      (st.envs.set st.environment { e with values := listSet e.values name.lexeme .nil })
      st.environment
      ({ e with values := listSet (listSet e.values name.lexeme .nil) name.lexeme (.cls (.mk name.lexeme none [])) } : Env)
      (by simpa using hlt)
    refine ⟨trivial, ?_⟩
    exact ⟨_, hget2, listLookup_listSet _ _ _⟩
  · intro n mname
    rfl

/-- Witness for C4 at the concrete declaration `class C { m() {} }` executed
from the initial interpreter state. -/
theorem class_statement_behaviour_witness :
    ((execStmt (9 + 1) (.classS (identTok "C") none [methodM])
        (initInterpState [])).1 = .normal ∧
      ∃ e', ((execStmt (9 + 1) (.classS (identTok "C") none [methodM])
          (initInterpState [])).2).envs.get?
            (initInterpState []).environment = some e' ∧
        listLookup e'.values (identTok "C").lexeme =
          some (.cls (.mk (identTok "C").lexeme none []))) ∧
    (∀ (n : String) (mname : Token),
      LoxInstanceV.get ⟨.mk n none [], []⟩ mname =
        .error ("Undefined property " ++ mname.lexeme ++ ".")) :=
  class_statement_behaviour 9 (identTok "C") none [methodM]
    (initInterpState []) ⟨[("clock", .clock)], none⟩ rfl

/-! ## Symbolic execution lemmas for the parser

The arity-cap claim is settled by running the parameter and argument loops
symbolically over token streams of arbitrary length.  These lemmas unfold
one monadic step at a time. -/

/-- Unfold a successful bind of the parser monad. -/
theorem PM.bind_ok {α β : Type} {m : PM α} {f : α → PM β} {st st' : PState}
    {a : α} (h : m st = (.ok a, st')) :
    (m >>= f) st = f a st' := by
  show (match m st with
    | (.ok a, st') => f a st'
    | (.error e, st') => (.error e, st')) = f a st'
  rw [h]

/-- Unfold pure of the parser monad. -/
theorem PM.pure_eq {α : Type} (a : α) (st : PState) :
    (pure a : PM α) st = (.ok a, st) := rfl

/-- The token under the cursor, read off a decomposition of the stream. -/
theorem tok_getD_of_drop {st : PState} {t : Token} {rest : List Token}
    (h : st.tokens.drop st.current = t :: rest) :
    st.tokens.getD st.current eofToken = t := by
  have h1 : st.tokens[st.current]? = some t := by
    have h2 := List.getElem?_drop st.tokens st.current 0
    rw [h] at h2
    simpa using h2.symm
  rw [List.getD_eq_getElem?_getD, h1]
  rfl

/-- Advancing the cursor peels one token off the stream. -/
theorem drop_succ_of_drop {l : List Token} {n : Nat} {t : Token}
    {rest : List Token} (h : l.drop n = t :: rest) :
    l.drop (n + 1) = rest := by
  rw [← List.tail_drop, h]
  rfl

/-- Parser.peek on a decomposed stream. -/
theorem peek_eq {st : PState} {t : Token} {rest : List Token}
    (h : st.tokens.drop st.current = t :: rest) :
    Parser.peek st = (.ok t, st) := by
  unfold Parser.peek
  rw [tok_getD_of_drop h]

/-- Parser.isAtEnd on a decomposed stream. -/
theorem isAtEnd_eq {st : PState} {t : Token} {rest : List Token}
    (h : st.tokens.drop st.current = t :: rest) :
    Parser.isAtEnd st = (.ok (decide (t.type = .EOF)), st) := by
  unfold Parser.isAtEnd
  rw [PM.bind_ok (peek_eq h)]
  rfl

/-- Parser.checkT on a decomposed stream whose head is not EOF. -/
theorem checkT_eq {st : PState} {t : Token} {rest : List Token}
    (h : st.tokens.drop st.current = t :: rest) (hne : t.type ≠ .EOF)
    (ty : TokenType) :
    Parser.checkT ty st = (.ok (decide (t.type = ty)), st) := by
  unfold Parser.checkT
  rw [PM.bind_ok (isAtEnd_eq h)]
  rw [if_neg (by simp [hne])]
  rw [PM.bind_ok (peek_eq h)]
  rfl

/-- Parser.checkT at an EOF head. -/
theorem checkT_eof {st : PState} {t : Token} {rest : List Token}
    (h : st.tokens.drop st.current = t :: rest) (heof : t.type = .EOF)
    (ty : TokenType) :
    Parser.checkT ty st = (.ok false, st) := by
  unfold Parser.checkT
  rw [PM.bind_ok (isAtEnd_eq h)]
  rw [if_pos (by simp [heof])]
  rfl

/-- Parser.advance on a decomposed stream whose head is not EOF. -/
theorem advance_eq {st : PState} {t : Token} {rest : List Token}
    (h : st.tokens.drop st.current = t :: rest) (hne : t.type ≠ .EOF) :
    Parser.advance st = (.ok t, { st with current := st.current + 1 }) := by
  unfold Parser.advance
  rw [tok_getD_of_drop h, if_neg hne]
  have : ({ st with current := st.current + 1 } : PState).tokens.getD
      ({ st with current := st.current + 1 } : PState).current.pred
      eofToken = t := by
    simp only [Nat.pred_succ]
    exact tok_getD_of_drop h
  simp only [Nat.add_sub_cancel]
  rw [tok_getD_of_drop h]

/-- Parser.matchT on an empty kind list. -/
theorem matchT_nil (st : PState) : Parser.matchT [] st = (.ok false, st) :=
  rfl

/-- Parser.matchT skips a kind the head does not have. -/
theorem matchT_skip {st : PState} {t : Token} {rest : List Token}
    (h : st.tokens.drop st.current = t :: rest) {ty : TokenType}
    (hne : t.type ≠ ty) (tys : List TokenType) :
    Parser.matchT (ty :: tys) st = Parser.matchT tys st := by
  rw [Parser.matchT]
  by_cases heof : t.type = .EOF
  · rw [PM.bind_ok (checkT_eof h heof ty)]
    rw [if_neg (by simp)]
  · rw [PM.bind_ok (checkT_eq h heof ty)]
    rw [if_neg (by simp [hne])]

/-- Parser.matchT succeeds on the head kind and advances. -/
theorem matchT_hit {st : PState} {t : Token} {rest : List Token}
    (h : st.tokens.drop st.current = t :: rest) {ty : TokenType}
    (hty : t.type = ty) (hne : t.type ≠ .EOF) (tys : List TokenType) :
    Parser.matchT (ty :: tys) st =
      (.ok true, { st with current := st.current + 1 }) := by
  rw [Parser.matchT]
  rw [PM.bind_ok (checkT_eq h hne ty)]
  rw [if_pos (by simp [hty])]
  rw [PM.bind_ok (advance_eq h hne)]
  rfl

/-- Parser.matchT fails when the head has none of the kinds. -/
theorem matchT_no {st : PState} {t : Token} {rest : List Token}
    (h : st.tokens.drop st.current = t :: rest) (tys : List TokenType)
    (hno : ∀ ty ∈ tys, t.type ≠ ty) :
    Parser.matchT tys st = (.ok false, st) := by
  induction tys with
  | nil => rfl
  | cons ty tys ih =>
    rw [matchT_skip h (hno ty (by simp)) tys]
    exact ih (fun ty' hty' => hno ty' (by simp [hty']))

/-- Parser.consume on the expected kind. -/
theorem consume_ok {st : PState} {t : Token} {rest : List Token}
    (h : st.tokens.drop st.current = t :: rest) {ty : TokenType}
    (hty : t.type = ty) (hne : t.type ≠ .EOF) (msg : String) :
    Parser.consume ty msg st =
      (.ok t, { st with current := st.current + 1 }) := by
  unfold Parser.consume
  rw [PM.bind_ok (checkT_eq h hne ty)]
  rw [if_pos (by simp [hty])]
  exact advance_eq h hne

/-- Parser.mkError records the message and returns it. -/
theorem mkError_eq (msg : String) (st : PState) :
    Parser.mkError msg st = (.ok msg, { st with errors := st.errors ++ [msg] }) :=
  rfl

/-- The separator token used by the parameter-list streams. -/
def commaTok : Token :=
  mkTok .Comma ","

/-- The behaviour of the parameter do-while loop on a comma-separated run of
identifier tokens followed by a non-comma token: every identifier is
collected (the loop completes normally and returns the full list — the
arity diagnostic is never fatal), the cursor ends on the closing token, and
one diagnostic is recorded for every iteration entered with 255 or more
parameters already collected — none when the final count stays at or
below 255. -/
theorem paramsLoop_spec :
    ∀ (names : List Token) (fuel : Nat) (acc : List Token) (st : PState)
      (t : Token) (rest : List Token),
      names ≠ [] →
      (∀ tok ∈ names, tok.type = .Identifier) →
      st.tokens.drop st.current =
        List.intersperse commaTok names ++ t :: rest →
      t.type ≠ .Comma →
      names.length ≤ fuel →
      Parser.paramsLoop fuel acc st =
        (.ok (acc ++ names),
         { st with
             current := st.current + (2 * names.length - 1),
             errors := st.errors ++ List.replicate
               (acc.length + names.length - max acc.length 255)
               "Cannot have more than 255 parameters" }) := by
  intro names
  induction names with
  | nil => intro _ _ _ _ _ h; exact absurd rfl h
  | cons n ns ih =>
    intro fuel acc st t rest _ hid hdrop hnc hfuel
    have hf1 : 1 ≤ fuel := le_trans (by simp) hfuel
    obtain ⟨f, rfl⟩ : ∃ f, fuel = f + 1 := ⟨fuel - 1, by omega⟩
    have hidn : n.type = .Identifier := hid n (by simp)
    have hneofn : n.type ≠ .EOF := by rw [hidn]; intro hc; cases hc
    cases ns with
    | nil =>
      have hdrop1 : st.tokens.drop st.current = n :: t :: rest := by
        simpa [List.intersperse] using hdrop
      rw [Parser.paramsLoop]
      by_cases hacc : acc.length ≥ 255
      · rw [if_pos hacc]
        rw [PM.bind_ok (mkError_eq "Cannot have more than 255 parameters" st)]
        try simp only []
        rw [PM.bind_ok (PM.pure_eq () { st with errors := st.errors ++ ["Cannot have more than 255 parameters"] })]
        try simp only []
        have hd1 : ({ st with errors := st.errors ++ ["Cannot have more than 255 parameters"] } : PState).tokens.drop ({ st with errors := st.errors ++ ["Cannot have more than 255 parameters"] } : PState).current = n :: t :: rest := hdrop1
        rw [PM.bind_ok (consume_ok hd1 hidn hneofn "Expect parameter name.")]
        try simp only []
        have hd2 : ({ st with errors := st.errors ++ ["Cannot have more than 255 parameters"], current := st.current + 1 } : PState).tokens.drop ({ st with errors := st.errors ++ ["Cannot have more than 255 parameters"], current := st.current + 1 } : PState).current = t :: rest := drop_succ_of_drop hdrop1
        rw [PM.bind_ok (matchT_no hd2 [.Comma] (by simpa using hnc))]
        simp only [Bool.false_eq_true, if_false, PM.pure_eq]
        have h2 : acc.length + ([n] : List Token).length - max acc.length 255 = 1 := by
          simp only [List.length_cons, List.length_nil]
          omega
        rw [h2]
        norm_num
      · rw [if_neg hacc]
        rw [PM.bind_ok (PM.pure_eq () st)]
        try simp only []
        rw [PM.bind_ok (consume_ok hdrop1 hidn hneofn "Expect parameter name.")]
        try simp only []
        have hd2 : ({ st with current := st.current + 1 } : PState).tokens.drop ({ st with current := st.current + 1 } : PState).current = t :: rest := drop_succ_of_drop hdrop1
        rw [PM.bind_ok (matchT_no hd2 [.Comma] (by simpa using hnc))]
        simp only [Bool.false_eq_true, if_false, PM.pure_eq]
        have h2 : acc.length + ([n] : List Token).length - max acc.length 255 = 0 := by
          simp only [List.length_cons, List.length_nil]
          omega
        rw [h2]
        norm_num
    | cons n2 ns2 =>
      have hdrop1 : st.tokens.drop st.current = n :: commaTok :: (List.intersperse commaTok (n2 :: ns2) ++ t :: rest) := by
        rw [hdrop, List.intersperse_cons_cons]
        rfl
      have hdrop2 : st.tokens.drop (st.current + 1) = commaTok :: (List.intersperse commaTok (n2 :: ns2) ++ t :: rest) :=
        drop_succ_of_drop hdrop1
      have hdrop3 : st.tokens.drop (st.current + 1 + 1) = List.intersperse commaTok (n2 :: ns2) ++ t :: rest :=
        drop_succ_of_drop hdrop2
      have hihlen : (n2 :: ns2).length ≤ f := by
        simp only [List.length_cons] at hfuel ⊢
        omega
      have hihid : ∀ tok ∈ n2 :: ns2, tok.type = .Identifier :=
        fun tok htok => hid tok (by simp [htok])
      rw [Parser.paramsLoop]
      by_cases hacc : acc.length ≥ 255
      · rw [if_pos hacc]
        rw [PM.bind_ok (mkError_eq "Cannot have more than 255 parameters" st)]
        try simp only []
        rw [PM.bind_ok (PM.pure_eq () { st with errors := st.errors ++ ["Cannot have more than 255 parameters"] })]
        try simp only []
        have hd1 : ({ st with errors := st.errors ++ ["Cannot have more than 255 parameters"] } : PState).tokens.drop ({ st with errors := st.errors ++ ["Cannot have more than 255 parameters"] } : PState).current = n :: commaTok :: (List.intersperse commaTok (n2 :: ns2) ++ t :: rest) := hdrop1
        rw [PM.bind_ok (consume_ok hd1 hidn hneofn "Expect parameter name.")]
        try simp only []
        have hd2 : ({ st with errors := st.errors ++ ["Cannot have more than 255 parameters"], current := st.current + 1 } : PState).tokens.drop ({ st with errors := st.errors ++ ["Cannot have more than 255 parameters"], current := st.current + 1 } : PState).current = commaTok :: (List.intersperse commaTok (n2 :: ns2) ++ t :: rest) := hdrop2
        rw [PM.bind_ok (matchT_hit hd2 (show commaTok.type = TokenType.Comma from rfl) (by intro hc; cases hc) [])]
        rw [if_pos rfl]
        have hd3 : ({ st with errors := st.errors ++ ["Cannot have more than 255 parameters"], current := st.current + 1 + 1 } : PState).tokens.drop ({ st with errors := st.errors ++ ["Cannot have more than 255 parameters"], current := st.current + 1 + 1 } : PState).current = List.intersperse commaTok (n2 :: ns2) ++ t :: rest := hdrop3
        rw [ih f (acc ++ [n]) _ t rest (by simp) hihid hd3 hnc hihlen]
        have hcur : st.current + 1 + 1 + (2 * (n2 :: ns2).length - 1) = st.current + (2 * (n :: n2 :: ns2).length - 1) := by
          simp only [List.length_cons]
          omega
        have herr : (st.errors ++ ["Cannot have more than 255 parameters"]) ++ List.replicate ((acc ++ [n]).length + (n2 :: ns2).length - max (acc ++ [n]).length 255) "Cannot have more than 255 parameters" = st.errors ++ List.replicate (acc.length + (n :: n2 :: ns2).length - max acc.length 255) "Cannot have more than 255 parameters" := by
          rw [List.append_assoc, List.singleton_append, ← List.replicate_succ]
          simp only [List.length_append, List.length_cons, List.length_nil]
          have harith : (acc.length + 0 + 1 + (ns2.length + 1) - max (acc.length + 0 + 1) 255) + 1 = acc.length + (ns2.length + 1 + 1) - max acc.length 255 := by
            omega
          rw [← harith]
        have hlist : (acc ++ [n]) ++ (n2 :: ns2) = acc ++ (n :: n2 :: ns2) := by
          simp
        rw [hcur, hlist, herr]
      · rw [if_neg hacc]
        rw [PM.bind_ok (PM.pure_eq () st)]
        try simp only []
        rw [PM.bind_ok (consume_ok hdrop1 hidn hneofn "Expect parameter name.")]
        try simp only []
        have hd2 : ({ st with current := st.current + 1 } : PState).tokens.drop ({ st with current := st.current + 1 } : PState).current = commaTok :: (List.intersperse commaTok (n2 :: ns2) ++ t :: rest) := hdrop2
        rw [PM.bind_ok (matchT_hit hd2 (show commaTok.type = TokenType.Comma from rfl) (by intro hc; cases hc) [])]
        rw [if_pos rfl]
        have hd3 : ({ st with current := st.current + 1 + 1 } : PState).tokens.drop ({ st with current := st.current + 1 + 1 } : PState).current = List.intersperse commaTok (n2 :: ns2) ++ t :: rest := hdrop3
        rw [ih f (acc ++ [n]) _ t rest (by simp) hihid hd3 hnc hihlen]
        have hcur : st.current + 1 + 1 + (2 * (n2 :: ns2).length - 1) = st.current + (2 * (n :: n2 :: ns2).length - 1) := by
          simp only [List.length_cons]
          omega
        have herr : st.errors ++ List.replicate ((acc ++ [n]).length + (n2 :: ns2).length - max (acc ++ [n]).length 255) "Cannot have more than 255 parameters" = st.errors ++ List.replicate (acc.length + (n :: n2 :: ns2).length - max acc.length 255) "Cannot have more than 255 parameters" := by
          simp only [List.length_append, List.length_cons, List.length_nil]
          have harith : acc.length + 0 + 1 + (ns2.length + 1) - max (acc.length + 0 + 1) 255 = acc.length + (ns2.length + 1 + 1) - max acc.length 255 := by
            omega
          rw [harith]
        have hlist : (acc ++ [n]) ++ (n2 :: ns2) = acc ++ (n :: n2 :: ns2) := by
          simp
        rw [hcur, hlist, herr]

/-- The length of a comma-interspersed name run. -/
theorem length_intersperse (sep : Token) :
    ∀ l : List Token, (List.intersperse sep l).length = 2 * l.length - 1 := by
  intro l
  induction l with
  | nil => rfl
  | cons n ns ih =>
    cases ns with
    | nil => rfl
    | cons n2 ns2 =>
      rw [List.intersperse_cons_cons]
      simp only [List.length_cons] at ih ⊢
      omega

/-- The closing tokens of the function declarations used by the arity-cap
theorem. -/
def rparenTok : Token := mkTok .RightParen ")"

/-- The opening-brace token. -/
def lbraceTok : Token := mkTok .LeftBrace "\x7b"

/-- The closing-brace token. -/
def rbraceTok : Token := mkTok .RightBrace "\x7d"

/-- The opening-parenthesis token. -/
def lparenTok : Token := mkTok .LeftParen "("

/-- Parser.block on an immediately-closed body. -/
theorem block_empty (f : Nat) (st : PState) (rest : List Token)
    (hf : 2 ≤ f)
    (hdrop : st.tokens.drop st.current = rbraceTok :: rest) :
    Parser.block f st = (.ok [], { st with current := st.current + 1 }) := by
  obtain ⟨fb, rfl⟩ : ∃ fb, f = fb + 1 + 1 := ⟨f - 2, by omega⟩
  have hloop : Parser.blockLoop (fb + 1) ([] : List Stmt) st = (.ok [], st) := by
    rw [Parser.blockLoop]
    rw [PM.bind_ok (checkT_eq hdrop (by intro hc; cases hc) _)]
    rw [if_pos (by rfl)]
    rfl
  rw [Parser.block]
  rw [PM.bind_ok hloop]
  try simp only []
  rw [PM.bind_ok (consume_ok hdrop
    (show rbraceTok.type = TokenType.RightBrace from rfl)
    (by intro hc; cases hc) _)]
  rfl

/-- Parser.functionDeclaration on `name ( p1 , ... , pn ) { }`: the
declaration node is produced with the complete parameter list and an empty
body whatever the parameter count; the recorded diagnostics grow by one
message exactly when the count exceeds 255 — and by none otherwise. -/
theorem functionDeclaration_spec (fname : Token) (names : List Token)
    (st : PState) (f : Nat) (rest : List Token) (kind : String)
    (hfn : fname.type = .Identifier)
    (hne : names ≠ [])
    (hid : ∀ tok ∈ names, tok.type = .Identifier)
    (hdrop : st.tokens.drop st.current = fname :: lparenTok ::
      (List.intersperse commaTok names ++
        rparenTok :: lbraceTok :: rbraceTok :: rest))
    (hfuel : names.length + 2 ≤ f) :
    Parser.functionDeclaration (f + 1) kind st =
      (.ok (.mk fname names []),
       { st with
           current := st.current + (2 * names.length + 4),
           errors := st.errors ++ List.replicate (names.length - 255)
             "Cannot have more than 255 parameters" }) := by
  have hd1 : st.tokens.drop (st.current + 1) = lparenTok ::
      (List.intersperse commaTok names ++
        rparenTok :: lbraceTok :: rbraceTok :: rest) :=
    drop_succ_of_drop hdrop
  have hd2 : st.tokens.drop (st.current + 1 + 1) =
      List.intersperse commaTok names ++
        rparenTok :: lbraceTok :: rbraceTok :: rest :=
    drop_succ_of_drop hd1
  have hfneof : fname.type ≠ .EOF := by rw [hfn]; intro hc; cases hc
  rw [Parser.functionDeclaration]
  rw [PM.bind_ok (consume_ok hdrop hfn hfneof _)]
  try simp only []
  have hd1g : ({ st with current := st.current + 1 } : PState).tokens.drop
      ({ st with current := st.current + 1 } : PState).current =
      lparenTok :: (List.intersperse commaTok names ++
        rparenTok :: lbraceTok :: rbraceTok :: rest) := hd1
  rw [PM.bind_ok (consume_ok hd1g
    (show lparenTok.type = TokenType.LeftParen from rfl)
    (by intro hc; cases hc) _)]
  try simp only []
  obtain ⟨n, ns, rfl⟩ : ∃ n ns, names = n :: ns := by
    cases names with
    | nil => exact absurd rfl hne
    | cons n ns => exact ⟨n, ns, rfl⟩
  have hheadn : ∃ tail, st.tokens.drop (st.current + 1 + 1) = n :: tail := by
    cases ns with
    | nil => exact ⟨rparenTok :: lbraceTok :: rbraceTok :: rest, by
        simpa [List.intersperse] using hd2⟩
    | cons n2 ns2 => exact ⟨commaTok :: (List.intersperse commaTok
        (n2 :: ns2) ++ rparenTok :: lbraceTok :: rbraceTok :: rest), by
        rw [List.intersperse_cons_cons] at hd2
        simpa using hd2⟩
  obtain ⟨tail, hheadn⟩ := hheadn
  have hnid : n.type = .Identifier := hid n (by simp)
  have hcheck : Parser.checkT .RightParen
      ({ st with current := st.current + 1 + 1 } : PState) =
      (.ok false, { st with current := st.current + 1 + 1 }) := by
    rw [checkT_eq hheadn (by rw [hnid]; intro hc; cases hc) _]
    rw [hnid]
    rfl
  rw [PM.bind_ok hcheck]
  rw [if_neg (by simp)]
  have hd2g : ({ st with current := st.current + 1 + 1 } : PState).tokens.drop
      ({ st with current := st.current + 1 + 1 } : PState).current =
      List.intersperse commaTok (n :: ns) ++
        rparenTok :: (lbraceTok :: rbraceTok :: rest) := hd2
  rw [PM.bind_ok (paramsLoop_spec (n :: ns) f []
    { st with current := st.current + 1 + 1 } rparenTok
    (lbraceTok :: rbraceTok :: rest) hne hid hd2g
    (by intro hc; cases hc)
    (by simp only [List.length_cons] at hfuel ⊢; omega))]
  try simp only []
  have herr0 : List.length ([] : List Token) + (n :: ns).length -
      max (List.length ([] : List Token)) 255 = (n :: ns).length - 255 := by
    simp
  rw [herr0]
  generalize hE : st.errors ++ List.replicate ((n :: ns).length - 255)
    "Cannot have more than 255 parameters" = E
  have hdAfter : st.tokens.drop
      (st.current + 1 + 1 + (2 * (n :: ns).length - 1)) =
      rparenTok :: lbraceTok :: rbraceTok :: rest := by
    have h1 : st.tokens.drop (st.current + 1 + 1 +
        (List.intersperse commaTok (n :: ns)).length) =
        rparenTok :: lbraceTok :: rbraceTok :: rest := by
      rw [← List.drop_drop]
      rw [hd2]
      exact List.drop_left _ _
    rwa [length_intersperse] at h1
  have hd4 : (⟨st.tokens, st.current + 1 + 1 + (2 * (n :: ns).length - 1),
      E, st.nextId⟩ : PState).tokens.drop
      (⟨st.tokens, st.current + 1 + 1 + (2 * (n :: ns).length - 1),
      E, st.nextId⟩ : PState).current =
      rparenTok :: lbraceTok :: rbraceTok :: rest := hdAfter
  rw [PM.bind_ok (consume_ok hd4
    (show rparenTok.type = TokenType.RightParen from rfl)
    (by intro hc; cases hc) _)]
  try simp only []
  have hd5 : (⟨st.tokens,
      st.current + 1 + 1 + (2 * (n :: ns).length - 1) + 1,
      E, st.nextId⟩ : PState).tokens.drop
      (⟨st.tokens, st.current + 1 + 1 + (2 * (n :: ns).length - 1) + 1,
      E, st.nextId⟩ : PState).current =
      lbraceTok :: rbraceTok :: rest := drop_succ_of_drop hdAfter
  rw [PM.bind_ok (consume_ok hd5
    (show lbraceTok.type = TokenType.LeftBrace from rfl)
    (by intro hc; cases hc) _)]
  try simp only []
  have hd6 : (⟨st.tokens,
      st.current + 1 + 1 + (2 * (n :: ns).length - 1) + 1 + 1,
      E, st.nextId⟩ : PState).tokens.drop
      (⟨st.tokens, st.current + 1 + 1 + (2 * (n :: ns).length - 1) + 1 + 1,
      E, st.nextId⟩ : PState).current =
      rbraceTok :: rest :=
    drop_succ_of_drop (drop_succ_of_drop hdAfter)
  rw [PM.bind_ok (block_empty f
    (⟨st.tokens, st.current + 1 + 1 + (2 * (n :: ns).length - 1) + 1 + 1,
      E, st.nextId⟩ : PState) rest (by omega) hd6)]
  try simp only []
  have hcur : st.current + 1 + 1 + (2 * (n :: ns).length - 1) + 1 + 1 + 1 =
      st.current + (2 * (n :: ns).length + 4) := by
    simp only [List.length_cons]
    omega
  rw [hcur]
  rfl

/-- Parser.previous right after one advance. -/
theorem previous_after {st : PState} {t : Token} {rest : List Token}
    (hdrop : st.tokens.drop st.current = t :: rest) :
    Parser.previous ({ st with current := st.current + 1 } : PState) =
      (.ok t, { st with current := st.current + 1 }) := by
  unfold Parser.previous
  simp only [Nat.add_sub_cancel]
  rw [tok_getD_of_drop hdrop]

/-- Parser.primary on a Number token: the literal expression. -/
theorem primary_number {st : PState} {t : Token} {rest : List Token}
    (hdrop : st.tokens.drop st.current = t :: rest)
    (ht : t.type = .NumberTok) (f : Nat) :
    Parser.primary (f + 1) st =
      (.ok (.lit (litOfToken t.literal)),
        { st with current := st.current + 1 }) := by
  rw [Parser.primary]
  rw [PM.bind_ok (matchT_no hdrop [.False] (by rw [ht]; decide))]
  rw [if_neg (by simp)]
  rw [PM.bind_ok (matchT_no hdrop [.True] (by rw [ht]; decide))]
  rw [if_neg (by simp)]
  rw [PM.bind_ok (matchT_no hdrop [.Nil] (by rw [ht]; decide))]
  rw [if_neg (by simp)]
  rw [PM.bind_ok (matchT_hit hdrop ht (by rw [ht]; decide) [.StringTok])]
  rw [if_pos rfl]
  rw [PM.bind_ok (previous_after hdrop)]
  rfl

/-- Parser.callLoop stops when no parenthesis follows. -/
theorem callLoop_stop {st : PState} {u : Token} {rest : List Token}
    (hdrop : st.tokens.drop st.current = u :: rest)
    (hu : u.type ≠ .LeftParen) (e : Expr) (f : Nat) :
    Parser.callLoop (f + 1) e st = (.ok e, st) := by
  rw [Parser.callLoop]
  rw [PM.bind_ok (matchT_no hdrop [.LeftParen]
    (by intro ty hty; simp at hty; subst hty; exact hu))]
  rw [if_neg (by simp)]
  rfl

/-- Parser.call on a Number token not followed by a parenthesis. -/
theorem callExpr_number {st : PState} {t u : Token} {rest : List Token}
    (hdrop : st.tokens.drop st.current = t :: u :: rest)
    (ht : t.type = .NumberTok) (hu : u.type ≠ .LeftParen) (f : Nat) :
    Parser.callExpr (f + 1 + 1) st =
      (.ok (.lit (litOfToken t.literal)),
        { st with current := st.current + 1 }) := by
  rw [Parser.callExpr]
  rw [PM.bind_ok (primary_number hdrop ht f)]
  try simp only []
  have hd2 : ({ st with current := st.current + 1 } : PState).tokens.drop
      ({ st with current := st.current + 1 } : PState).current =
      u :: rest := drop_succ_of_drop hdrop
  exact callLoop_stop hd2 hu _ f

/-- Parser.unary on a Number token. -/
theorem unary_number {st : PState} {t u : Token} {rest : List Token}
    (hdrop : st.tokens.drop st.current = t :: u :: rest)
    (ht : t.type = .NumberTok) (hu : u.type ≠ .LeftParen) (f : Nat) :
    Parser.unary (f + 3) st =
      (.ok (.lit (litOfToken t.literal)),
        { st with current := st.current + 1 }) := by
  rw [Parser.unary]
  rw [PM.bind_ok (matchT_no hdrop [.Bang, .Minus] (by rw [ht]; decide))]
  rw [if_neg (by simp)]
  exact callExpr_number hdrop ht hu f

/-- A binary-operator loop of the parser stops on a non-operator token.
Stated for each loop in turn below via this shared list condition. -/
theorem factorLoop_stop {st : PState} {u : Token} {rest : List Token}
    (hdrop : st.tokens.drop st.current = u :: rest)
    (hu : ∀ ty ∈ [TokenType.Slash, .Star, .Percent], u.type ≠ ty)
    (e : Expr) (f : Nat) :
    Parser.factorLoop (f + 1) e st = (.ok e, st) := by
  rw [Parser.factorLoop]
  rw [PM.bind_ok (matchT_no hdrop _ hu)]
  rw [if_neg (by simp)]
  rfl

/-- Parser.factor on a Number token. -/
theorem factor_number {st : PState} {t u : Token} {rest : List Token}
    (hdrop : st.tokens.drop st.current = t :: u :: rest)
    (ht : t.type = .NumberTok)
    (hu : u.type = .Comma ∨ u.type = .RightParen) (f : Nat) :
    Parser.factor (f + 4) st =
      (.ok (.lit (litOfToken t.literal)),
        { st with current := st.current + 1 }) := by
  rw [Parser.factor]
  rw [PM.bind_ok (unary_number hdrop ht
    (by rcases hu with h | h <;> rw [h] <;> decide) f)]
  try simp only []
  have hd2 : ({ st with current := st.current + 1 } : PState).tokens.drop
      ({ st with current := st.current + 1 } : PState).current =
      u :: rest := drop_succ_of_drop hdrop
  exact factorLoop_stop hd2
    (by rcases hu with h | h <;> rw [h] <;> decide) _ (f + 2)

/-- The term loop stops on a non-operator token. -/
theorem termLoop_stop {st : PState} {u : Token} {rest : List Token}
    (hdrop : st.tokens.drop st.current = u :: rest)
    (hu : ∀ ty ∈ [TokenType.Minus, .Plus], u.type ≠ ty)
    (e : Expr) (f : Nat) :
    Parser.termLoop (f + 1) e st = (.ok e, st) := by
  rw [Parser.termLoop]
  rw [PM.bind_ok (matchT_no hdrop _ hu)]
  rw [if_neg (by simp)]
  rfl

/-- Parser.term on a Number token. -/
theorem term_number {st : PState} {t u : Token} {rest : List Token}
    (hdrop : st.tokens.drop st.current = t :: u :: rest)
    (ht : t.type = .NumberTok)
    (hu : u.type = .Comma ∨ u.type = .RightParen) (f : Nat) :
    Parser.term (f + 5) st =
      (.ok (.lit (litOfToken t.literal)),
        { st with current := st.current + 1 }) := by
  rw [Parser.term]
  rw [PM.bind_ok (factor_number hdrop ht hu f)]
  try simp only []
  have hd2 : ({ st with current := st.current + 1 } : PState).tokens.drop
      ({ st with current := st.current + 1 } : PState).current =
      u :: rest := drop_succ_of_drop hdrop
  exact termLoop_stop hd2
    (by rcases hu with h | h <;> rw [h] <;> decide) _ (f + 3)

/-- The comparison loop stops on a non-operator token. -/
theorem comparisonLoop_stop {st : PState} {u : Token} {rest : List Token}
    (hdrop : st.tokens.drop st.current = u :: rest)
    (hu : ∀ ty ∈ [TokenType.Greater, .GreaterEqual, .Less, .LessEqual],
      u.type ≠ ty)
    (e : Expr) (f : Nat) :
    Parser.comparisonLoop (f + 1) e st = (.ok e, st) := by
  rw [Parser.comparisonLoop]
  rw [PM.bind_ok (matchT_no hdrop _ hu)]
  rw [if_neg (by simp)]
  rfl

/-- Parser.comparison on a Number token. -/
theorem comparison_number {st : PState} {t u : Token} {rest : List Token}
    (hdrop : st.tokens.drop st.current = t :: u :: rest)
    (ht : t.type = .NumberTok)
    (hu : u.type = .Comma ∨ u.type = .RightParen) (f : Nat) :
    Parser.comparison (f + 6) st =
      (.ok (.lit (litOfToken t.literal)),
        { st with current := st.current + 1 }) := by
  rw [Parser.comparison]
  rw [PM.bind_ok (term_number hdrop ht hu f)]
  try simp only []
  have hd2 : ({ st with current := st.current + 1 } : PState).tokens.drop
      ({ st with current := st.current + 1 } : PState).current =
      u :: rest := drop_succ_of_drop hdrop
  exact comparisonLoop_stop hd2
    (by rcases hu with h | h <;> rw [h] <;> decide) _ (f + 4)

/-- The equality loop stops on a non-operator token. -/
theorem equalityLoop_stop {st : PState} {u : Token} {rest : List Token}
    (hdrop : st.tokens.drop st.current = u :: rest)
    (hu : ∀ ty ∈ [TokenType.BangEqual, .EqualEqual], u.type ≠ ty)
    (e : Expr) (f : Nat) :
    Parser.equalityLoop (f + 1) e st = (.ok e, st) := by
  rw [Parser.equalityLoop]
  rw [PM.bind_ok (matchT_no hdrop _ hu)]
  rw [if_neg (by simp)]
  rfl

/-- Parser.equality on a Number token. -/
theorem equality_number {st : PState} {t u : Token} {rest : List Token}
    (hdrop : st.tokens.drop st.current = t :: u :: rest)
    (ht : t.type = .NumberTok)
    (hu : u.type = .Comma ∨ u.type = .RightParen) (f : Nat) :
    Parser.equality (f + 7) st =
      (.ok (.lit (litOfToken t.literal)),
        { st with current := st.current + 1 }) := by
  rw [Parser.equality]
  rw [PM.bind_ok (comparison_number hdrop ht hu f)]
  try simp only []
  have hd2 : ({ st with current := st.current + 1 } : PState).tokens.drop
      ({ st with current := st.current + 1 } : PState).current =
      u :: rest := drop_succ_of_drop hdrop
  exact equalityLoop_stop hd2
    (by rcases hu with h | h <;> rw [h] <;> decide) _ (f + 5)

/-- The and loop stops on a non-operator token. -/
theorem andLoop_stop {st : PState} {u : Token} {rest : List Token}
    (hdrop : st.tokens.drop st.current = u :: rest)
    (hu : u.type ≠ .And) (e : Expr) (f : Nat) :
    Parser.andLoop (f + 1) e st = (.ok e, st) := by
  rw [Parser.andLoop]
  rw [PM.bind_ok (matchT_no hdrop [.And]
    (by intro ty hty; simp at hty; subst hty; exact hu))]
  rw [if_neg (by simp)]
  rfl

/-- Parser.and on a Number token. -/
theorem andExpr_number {st : PState} {t u : Token} {rest : List Token}
    (hdrop : st.tokens.drop st.current = t :: u :: rest)
    (ht : t.type = .NumberTok)
    (hu : u.type = .Comma ∨ u.type = .RightParen) (f : Nat) :
    Parser.andExpr (f + 8) st =
      (.ok (.lit (litOfToken t.literal)),
        { st with current := st.current + 1 }) := by
  rw [Parser.andExpr]
  rw [PM.bind_ok (equality_number hdrop ht hu f)]
  try simp only []
  have hd2 : ({ st with current := st.current + 1 } : PState).tokens.drop
      ({ st with current := st.current + 1 } : PState).current =
      u :: rest := drop_succ_of_drop hdrop
  exact andLoop_stop hd2
    (by rcases hu with h | h <;> rw [h] <;> decide) _ (f + 6)

/-- The or loop stops on a non-operator token. -/
theorem orLoop_stop {st : PState} {u : Token} {rest : List Token}
    (hdrop : st.tokens.drop st.current = u :: rest)
    (hu : u.type ≠ .Or) (e : Expr) (f : Nat) :
    Parser.orLoop (f + 1) e st = (.ok e, st) := by
  rw [Parser.orLoop]
  rw [PM.bind_ok (matchT_no hdrop [.Or]
    (by intro ty hty; simp at hty; subst hty; exact hu))]
  rw [if_neg (by simp)]
  rfl

/-- Parser.or on a Number token. -/
theorem orExpr_number {st : PState} {t u : Token} {rest : List Token}
    (hdrop : st.tokens.drop st.current = t :: u :: rest)
    (ht : t.type = .NumberTok)
    (hu : u.type = .Comma ∨ u.type = .RightParen) (f : Nat) :
    Parser.orExpr (f + 9) st =
      (.ok (.lit (litOfToken t.literal)),
        { st with current := st.current + 1 }) := by
  rw [Parser.orExpr]
  rw [PM.bind_ok (andExpr_number hdrop ht hu f)]
  try simp only []
  have hd2 : ({ st with current := st.current + 1 } : PState).tokens.drop
      ({ st with current := st.current + 1 } : PState).current =
      u :: rest := drop_succ_of_drop hdrop
  exact orLoop_stop hd2
    (by rcases hu with h | h <;> rw [h] <;> decide) _ (f + 7)

/-- Parser.assignment on a Number token. -/
theorem assignment_number {st : PState} {t u : Token} {rest : List Token}
    (hdrop : st.tokens.drop st.current = t :: u :: rest)
    (ht : t.type = .NumberTok)
    (hu : u.type = .Comma ∨ u.type = .RightParen) (f : Nat) :
    Parser.assignment (f + 10) st =
      (.ok (.lit (litOfToken t.literal)),
        { st with current := st.current + 1 }) := by
  rw [Parser.assignment]
  rw [PM.bind_ok (orExpr_number hdrop ht hu f)]
  try simp only []
  have hd2 : ({ st with current := st.current + 1 } : PState).tokens.drop
      ({ st with current := st.current + 1 } : PState).current =
      u :: rest := drop_succ_of_drop hdrop
  rw [PM.bind_ok (matchT_no hd2 [.Equal]
    (by rcases hu with h | h <;> rw [h] <;> decide))]
  rw [if_neg (by simp)]
  rfl

/-- Parser.expression on a Number token followed by a comma or closing
parenthesis: the literal expression, one token consumed. -/
theorem expression_number {st : PState} {t u : Token} {rest : List Token}
    (hdrop : st.tokens.drop st.current = t :: u :: rest)
    (ht : t.type = .NumberTok)
    (hu : u.type = .Comma ∨ u.type = .RightParen) (f : Nat) :
    Parser.expression (f + 11) st =
      (.ok (.lit (litOfToken t.literal)),
        { st with current := st.current + 1 }) := by
  rw [Parser.expression]
  exact assignment_number hdrop ht hu f

/-- The behaviour of the argument do-while loop on a comma-separated run of
Number tokens closed by a right parenthesis: every argument expression is
collected (the loop completes normally — the arity diagnostic is never
fatal), and one diagnostic is recorded for every iteration entered with 255
or more arguments already collected — none when the final count stays at or
below 255. -/
theorem argsLoop_spec :
    ∀ (nums : List Token) (fuel : Nat) (acc : List Expr) (st : PState)
      (t : Token) (rest : List Token),
      nums ≠ [] →
      (∀ tok ∈ nums, tok.type = .NumberTok) →
      st.tokens.drop st.current =
        List.intersperse commaTok nums ++ t :: rest →
      t.type = .RightParen →
      nums.length + 11 ≤ fuel →
      Parser.argsLoop fuel acc st =
        (.ok (acc ++ nums.map (fun tok => Expr.lit (litOfToken tok.literal))),
         { st with
             current := st.current + (2 * nums.length - 1),
             errors := st.errors ++ List.replicate
               (acc.length + nums.length - max acc.length 255)
               "Cannot have more than 255 arguments" }) := by
  intro nums
  induction nums with
  | nil => intro _ _ _ _ _ h; exact absurd rfl h
  | cons n ns ih =>
    intro fuel acc st t rest _ hnum hdrop htrp hfuel
    obtain ⟨g, rfl⟩ : ∃ g, fuel = g + 11 + 1 := ⟨fuel - 12, by
      simp only [List.length_cons] at hfuel
      omega⟩
    have hnn : n.type = .NumberTok := hnum n (by simp)
    cases ns with
    | nil =>
      have hdrop1 : st.tokens.drop st.current = n :: t :: rest := by
        simpa [List.intersperse] using hdrop
      have hdrop2 : st.tokens.drop (st.current + 1) = t :: rest :=
        drop_succ_of_drop hdrop1
      rw [Parser.argsLoop]
      by_cases hacc : acc.length ≥ 255
      · rw [if_pos hacc]
        rw [PM.bind_ok (mkError_eq "Cannot have more than 255 arguments" st)]
        try simp only []
        rw [PM.bind_ok (PM.pure_eq () { st with errors := st.errors ++ ["Cannot have more than 255 arguments"] })]
        try simp only []
        have hd1 : ({ st with errors := st.errors ++ ["Cannot have more than 255 arguments"] } : PState).tokens.drop ({ st with errors := st.errors ++ ["Cannot have more than 255 arguments"] } : PState).current = n :: t :: rest := hdrop1
        rw [PM.bind_ok (expression_number hd1 hnn (Or.inr htrp) g)]
        try simp only []
        have hd2 : ({ st with errors := st.errors ++ ["Cannot have more than 255 arguments"], current := st.current + 1 } : PState).tokens.drop ({ st with errors := st.errors ++ ["Cannot have more than 255 arguments"], current := st.current + 1 } : PState).current = t :: rest := hdrop2
        rw [PM.bind_ok (matchT_no hd2 [.Comma] (by rw [htrp]; decide))]
        rw [if_neg (by simp)]
        rw [PM.pure_eq]
        have h2 : acc.length + ([n] : List Token).length - max acc.length 255 = 1 := by
          simp only [List.length_cons, List.length_nil]
          omega
        rw [h2]
        norm_num
      · rw [if_neg hacc]
        rw [PM.bind_ok (PM.pure_eq () st)]
        try simp only []
        rw [PM.bind_ok (expression_number hdrop1 hnn (Or.inr htrp) g)]
        try simp only []
        have hd2 : ({ st with current := st.current + 1 } : PState).tokens.drop ({ st with current := st.current + 1 } : PState).current = t :: rest := hdrop2
        rw [PM.bind_ok (matchT_no hd2 [.Comma] (by rw [htrp]; decide))]
        rw [if_neg (by simp)]
        rw [PM.pure_eq]
        have h2 : acc.length + ([n] : List Token).length - max acc.length 255 = 0 := by
          simp only [List.length_cons, List.length_nil]
          omega
        rw [h2]
        norm_num
    | cons n2 ns2 =>
      have hdrop1 : st.tokens.drop st.current = n :: commaTok :: (List.intersperse commaTok (n2 :: ns2) ++ t :: rest) := by
        rw [hdrop, List.intersperse_cons_cons]
        rfl
      have hdrop2 : st.tokens.drop (st.current + 1) = commaTok :: (List.intersperse commaTok (n2 :: ns2) ++ t :: rest) :=
        drop_succ_of_drop hdrop1
      have hdrop3 : st.tokens.drop (st.current + 1 + 1) = List.intersperse commaTok (n2 :: ns2) ++ t :: rest :=
        drop_succ_of_drop hdrop2
      have hihlen : (n2 :: ns2).length + 11 ≤ g + 11 := by
        simp only [List.length_cons] at hfuel ⊢
        omega
      have hihnum : ∀ tok ∈ n2 :: ns2, tok.type = .NumberTok :=
        fun tok htok => hnum tok (by simp [htok])
      rw [Parser.argsLoop]
      by_cases hacc : acc.length ≥ 255
      · rw [if_pos hacc]
        rw [PM.bind_ok (mkError_eq "Cannot have more than 255 arguments" st)]
        try simp only []
        rw [PM.bind_ok (PM.pure_eq () { st with errors := st.errors ++ ["Cannot have more than 255 arguments"] })]
        try simp only []
        have hd1 : ({ st with errors := st.errors ++ ["Cannot have more than 255 arguments"] } : PState).tokens.drop ({ st with errors := st.errors ++ ["Cannot have more than 255 arguments"] } : PState).current = n :: commaTok :: (List.intersperse commaTok (n2 :: ns2) ++ t :: rest) := hdrop1
        rw [PM.bind_ok (expression_number hd1 hnn (Or.inl rfl) g)]
        try simp only []
        have hd2 : ({ st with errors := st.errors ++ ["Cannot have more than 255 arguments"], current := st.current + 1 } : PState).tokens.drop ({ st with errors := st.errors ++ ["Cannot have more than 255 arguments"], current := st.current + 1 } : PState).current = commaTok :: (List.intersperse commaTok (n2 :: ns2) ++ t :: rest) := hdrop2
        rw [PM.bind_ok (matchT_hit hd2 (show commaTok.type = TokenType.Comma from rfl) (by intro hc; cases hc) [])]
        rw [if_pos rfl]
        have hd3 : ({ st with errors := st.errors ++ ["Cannot have more than 255 arguments"], current := st.current + 1 + 1 } : PState).tokens.drop ({ st with errors := st.errors ++ ["Cannot have more than 255 arguments"], current := st.current + 1 + 1 } : PState).current = List.intersperse commaTok (n2 :: ns2) ++ t :: rest := hdrop3
        rw [ih (g + 11) (acc ++ [Expr.lit (litOfToken n.literal)]) _ t rest (by simp) hihnum hd3 htrp hihlen]
        have hcur : st.current + 1 + 1 + (2 * (n2 :: ns2).length - 1) = st.current + (2 * (n :: n2 :: ns2).length - 1) := by
          simp only [List.length_cons]
          omega
        have herr : (st.errors ++ ["Cannot have more than 255 arguments"]) ++ List.replicate ((acc ++ [Expr.lit (litOfToken n.literal)]).length + (n2 :: ns2).length - max (acc ++ [Expr.lit (litOfToken n.literal)]).length 255) "Cannot have more than 255 arguments" = st.errors ++ List.replicate (acc.length + (n :: n2 :: ns2).length - max acc.length 255) "Cannot have more than 255 arguments" := by
          rw [List.append_assoc, List.singleton_append, ← List.replicate_succ]
          simp only [List.length_append, List.length_cons, List.length_nil]
          have harith : (acc.length + 0 + 1 + (ns2.length + 1) - max (acc.length + 0 + 1) 255) + 1 = acc.length + (ns2.length + 1 + 1) - max acc.length 255 := by
            omega
          rw [← harith]
        have hlist : (acc ++ [Expr.lit (litOfToken n.literal)]) ++ (n2 :: ns2).map (fun tok => Expr.lit (litOfToken tok.literal)) = acc ++ (n :: n2 :: ns2).map (fun tok => Expr.lit (litOfToken tok.literal)) := by
          simp
        rw [hcur, herr, hlist]
      · rw [if_neg hacc]
        rw [PM.bind_ok (PM.pure_eq () st)]
        try simp only []
        rw [PM.bind_ok (expression_number hdrop1 hnn (Or.inl rfl) g)]
        try simp only []
        have hd2 : ({ st with current := st.current + 1 } : PState).tokens.drop ({ st with current := st.current + 1 } : PState).current = commaTok :: (List.intersperse commaTok (n2 :: ns2) ++ t :: rest) := hdrop2
        rw [PM.bind_ok (matchT_hit hd2 (show commaTok.type = TokenType.Comma from rfl) (by intro hc; cases hc) [])]
        rw [if_pos rfl]
        have hd3 : ({ st with current := st.current + 1 + 1 } : PState).tokens.drop ({ st with current := st.current + 1 + 1 } : PState).current = List.intersperse commaTok (n2 :: ns2) ++ t :: rest := hdrop3
        rw [ih (g + 11) (acc ++ [Expr.lit (litOfToken n.literal)]) _ t rest (by simp) hihnum hd3 htrp hihlen]
        have hcur : st.current + 1 + 1 + (2 * (n2 :: ns2).length - 1) = st.current + (2 * (n :: n2 :: ns2).length - 1) := by
          simp only [List.length_cons]
          omega
        have herr : st.errors ++ List.replicate ((acc ++ [Expr.lit (litOfToken n.literal)]).length + (n2 :: ns2).length - max (acc ++ [Expr.lit (litOfToken n.literal)]).length 255) "Cannot have more than 255 arguments" = st.errors ++ List.replicate (acc.length + (n :: n2 :: ns2).length - max acc.length 255) "Cannot have more than 255 arguments" := by
          simp only [List.length_append, List.length_cons, List.length_nil]
          have harith : acc.length + 0 + 1 + (ns2.length + 1) - max (acc.length + 0 + 1) 255 = acc.length + (ns2.length + 1 + 1) - max acc.length 255 := by
            omega
          rw [harith]
        have hlist : (acc ++ [Expr.lit (litOfToken n.literal)]) ++ (n2 :: ns2).map (fun tok => Expr.lit (litOfToken tok.literal)) = acc ++ (n :: n2 :: ns2).map (fun tok => Expr.lit (litOfToken tok.literal)) := by
          simp
        rw [hcur, herr, hlist]

/-- Parser.finishCall on `num , ... , num )`: the Call node is produced with
the complete argument list; the recorded diagnostics grow by one message
exactly when the count exceeds 255 — and by none otherwise. -/
theorem finishCall_spec (callee : Expr) (nums : List Token) (st : PState)
    (f : Nat) (rest : List Token)
    (hne : nums ≠ [])
    (hnum : ∀ tok ∈ nums, tok.type = .NumberTok)
    (hdrop : st.tokens.drop st.current =
      List.intersperse commaTok nums ++ rparenTok :: rest)
    (hfuel : nums.length + 11 ≤ f) :
    Parser.finishCall (f + 1) callee st =
      (.ok (.call callee rparenTok
        (nums.map (fun tok => Expr.lit (litOfToken tok.literal)))),
       { st with
           current := st.current + (2 * nums.length - 1) + 1,
           errors := st.errors ++ List.replicate (nums.length - 255)
             "Cannot have more than 255 arguments" }) := by
  obtain ⟨n, ns, rfl⟩ : ∃ n ns, nums = n :: ns := by
    cases nums with
    | nil => exact absurd rfl hne
    | cons n ns => exact ⟨n, ns, rfl⟩
  have hheadn : ∃ tail, st.tokens.drop st.current = n :: tail := by
    cases ns with
    | nil => exact ⟨rparenTok :: rest, by simpa [List.intersperse] using hdrop⟩
    | cons n2 ns2 => exact ⟨commaTok :: (List.intersperse commaTok
        (n2 :: ns2) ++ rparenTok :: rest), by
        rw [List.intersperse_cons_cons] at hdrop
        simpa using hdrop⟩
  obtain ⟨tail, hheadn⟩ := hheadn
  have hnn : n.type = .NumberTok := hnum n (by simp)
  rw [Parser.finishCall]
  have hcheck : Parser.checkT .RightParen st = (.ok false, st) := by
    rw [checkT_eq hheadn (by rw [hnn]; intro hc; cases hc) _]
    rw [hnn]
    rfl
  rw [PM.bind_ok hcheck]
  rw [if_neg (by simp)]
  rw [PM.bind_ok (argsLoop_spec (n :: ns) f [] st rparenTok rest hne hnum
    hdrop rfl hfuel)]
  try simp only []
  have herr0 : List.length ([] : List Expr) + (n :: ns).length -
      max (List.length ([] : List Expr)) 255 = (n :: ns).length - 255 := by
    simp
  rw [herr0]
  generalize hE : st.errors ++ List.replicate ((n :: ns).length - 255)
    "Cannot have more than 255 arguments" = E
  have hdAfter : st.tokens.drop
      (st.current + (2 * (n :: ns).length - 1)) = rparenTok :: rest := by
    have h1 : st.tokens.drop (st.current +
        (List.intersperse commaTok (n :: ns)).length) =
        rparenTok :: rest := by
      rw [← List.drop_drop]
      rw [hdrop]
      exact List.drop_left _ _
    rwa [length_intersperse] at h1
  have hd4 : (⟨st.tokens, st.current + (2 * (n :: ns).length - 1),
      E, st.nextId⟩ : PState).tokens.drop
      (⟨st.tokens, st.current + (2 * (n :: ns).length - 1),
      E, st.nextId⟩ : PState).current = rparenTok :: rest := hdAfter
  rw [PM.bind_ok (consume_ok hd4
    (show rparenTok.type = TokenType.RightParen from rfl)
    (by intro hc; cases hc) _)]
  try simp only []
  rfl

/-- The parameter-name run used by the arity witnesses. -/
def pNames (k : Nat) : List Token :=
  List.replicate k (identTok "p")

/-- A number token. -/
def numTok1 : Token :=
  ⟨.NumberTok, "1", some (.num 1), 1⟩

/-- The argument run used by the arity witnesses. -/
def nNums (k : Nat) : List Token :=
  List.replicate k numTok1

/-- An EOF token on line 1. -/
def eofTok1 : Token :=
  ⟨.EOF, "", none, 1⟩

/-- The parser state holding `f ( p , ... , p ) { }` with k parameters. -/
def funState (k : Nat) : PState :=
  ⟨identTok "f" :: lparenTok :: (List.intersperse commaTok (pNames k) ++
    rparenTok :: lbraceTok :: rbraceTok :: [eofTok1]), 0, [], 0⟩

/-- The parser state holding `1 , ... , 1 )` with k arguments (the state of
finishCall right after the opening parenthesis of a call). -/
def callState (k : Nat) : PState :=
  ⟨List.intersperse commaTok (nNums k) ++ rparenTok :: [eofTok1], 0, [], 0⟩

/-- C9: for every function declaration `name(p1,...,pn){}` and every call
argument list `(a1,...,an)`, the parser produces the declaration or call
node with the complete list and records `n - 255` arity diagnostics: a list
of exactly 255 entries is accepted without diagnostic, one of 256 entries
produces exactly one reported error, and in both cases parsing continues
normally (the result is ok, never a thrown parse error, and the node carries
all entries). -/
theorem arity_cap_behaviour :
    (∀ (fname : Token) (names : List Token) (st : PState) (f : Nat)
       (rest : List Token) (kind : String),
      fname.type = .Identifier →
      names ≠ [] →
      (∀ tok ∈ names, tok.type = .Identifier) →
      st.tokens.drop st.current = fname :: lparenTok ::
        (List.intersperse commaTok names ++
          rparenTok :: lbraceTok :: rbraceTok :: rest) →
      names.length + 2 ≤ f →
      Parser.functionDeclaration (f + 1) kind st =
        (.ok (.mk fname names []),
         { st with
             current := st.current + (2 * names.length + 4),
             errors := st.errors ++ List.replicate (names.length - 255)
               "Cannot have more than 255 parameters" })) ∧
    (∀ (callee : Expr) (nums : List Token) (st : PState) (f : Nat)
       (rest : List Token),
      nums ≠ [] →
      (∀ tok ∈ nums, tok.type = .NumberTok) →
      st.tokens.drop st.current =
        List.intersperse commaTok nums ++ rparenTok :: rest →
      nums.length + 11 ≤ f →
      Parser.finishCall (f + 1) callee st =
        (.ok (.call callee rparenTok
          (nums.map (fun tok => Expr.lit (litOfToken tok.literal)))),
         { st with
             current := st.current + (2 * nums.length - 1) + 1,
             errors := st.errors ++ List.replicate (nums.length - 255)
               "Cannot have more than 255 arguments" })) ∧
    List.replicate (255 - 255) "Cannot have more than 255 parameters" =
      [] ∧
    List.replicate (256 - 255) "Cannot have more than 255 parameters" =
      ["Cannot have more than 255 parameters"] ∧
    List.replicate (255 - 255) "Cannot have more than 255 arguments" =
      [] ∧
    List.replicate (256 - 255) "Cannot have more than 255 arguments" =
      ["Cannot have more than 255 arguments"] :=
  ⟨functionDeclaration_spec, finishCall_spec, rfl, rfl, rfl, rfl⟩

set_option maxRecDepth 100000 in
/-- Witness for C9 at the boundary: 255 and 256 parameters, and 255 and 256
arguments, on concrete token streams. -/
theorem arity_cap_behaviour_witness :
    (Parser.functionDeclaration ((pNames 255).length + 2 + 1) "function"
        (funState 255) =
      (.ok (.mk (identTok "f") (pNames 255) []),
       { funState 255 with
           current := (funState 255).current + (2 * (pNames 255).length + 4),
           errors := (funState 255).errors ++
             List.replicate ((pNames 255).length - 255)
               "Cannot have more than 255 parameters" })) ∧
    (Parser.functionDeclaration ((pNames 256).length + 2 + 1) "function"
        (funState 256) =
      (.ok (.mk (identTok "f") (pNames 256) []),
       { funState 256 with
           current := (funState 256).current + (2 * (pNames 256).length + 4),
           errors := (funState 256).errors ++
             List.replicate ((pNames 256).length - 255)
               "Cannot have more than 255 parameters" })) ∧
    (Parser.finishCall ((nNums 255).length + 11 + 1)
        (Expr.varE 0 (identTok "f")) (callState 255) =
      (.ok (.call (Expr.varE 0 (identTok "f")) rparenTok
        ((nNums 255).map (fun tok => Expr.lit (litOfToken tok.literal)))),
       { callState 255 with
           current := (callState 255).current +
             (2 * (nNums 255).length - 1) + 1,
           errors := (callState 255).errors ++
             List.replicate ((nNums 255).length - 255)
               "Cannot have more than 255 arguments" })) ∧
    (Parser.finishCall ((nNums 256).length + 11 + 1)
        (Expr.varE 0 (identTok "f")) (callState 256) =
      (.ok (.call (Expr.varE 0 (identTok "f")) rparenTok
        ((nNums 256).map (fun tok => Expr.lit (litOfToken tok.literal)))),
       { callState 256 with
           current := (callState 256).current +
             (2 * (nNums 256).length - 1) + 1,
           errors := (callState 256).errors ++
             List.replicate ((nNums 256).length - 255)
               "Cannot have more than 255 arguments" })) := by
  refine ⟨?_, ?_, ?_, ?_⟩
  · exact arity_cap_behaviour.1 (identTok "f") (pNames 255) (funState 255)
      ((pNames 255).length + 2) [eofTok1] "function" rfl
      (by intro h; have hl := congrArg List.length h; simp [pNames] at hl)
      (by intro tok htok
          simp only [pNames] at htok
          rw [List.eq_of_mem_replicate htok]
          rfl)
      rfl (le_refl _)
  · exact arity_cap_behaviour.1 (identTok "f") (pNames 256) (funState 256)
      ((pNames 256).length + 2) [eofTok1] "function" rfl
      (by intro h; have hl := congrArg List.length h; simp [pNames] at hl)
      (by intro tok htok
          simp only [pNames] at htok
          rw [List.eq_of_mem_replicate htok]
          rfl)
      rfl (le_refl _)
  · exact arity_cap_behaviour.2.1 (Expr.varE 0 (identTok "f")) (nNums 255)
      (callState 255) ((nNums 255).length + 11) [eofTok1]
      (by intro h; have hl := congrArg List.length h; simp [nNums] at hl)
      (by intro tok htok
          simp only [nNums] at htok
          rw [List.eq_of_mem_replicate htok]
          rfl)
      rfl (le_refl _)
  · exact arity_cap_behaviour.2.1 (Expr.varE 0 (identTok "f")) (nNums 256)
      (callState 256) ((nNums 256).length + 11) [eofTok1]
      (by intro h; have hl := congrArg List.length h; simp [nNums] at hl)
      (by intro tok htok
          simp only [nNums] at htok
          rw [List.eq_of_mem_replicate htok]
          rfl)
      rfl (le_refl _)

end Lox
